import Mathlib

/-!
# Verification of the Dunnes Shopping Optimiser planning engine

Shallow embedding of the planning/optimization engine:
* `src/utils/couponRules.ts` — the reward-rule engine (`COUPON_RULES`,
  `getCouponEarned`, `createCoupon`, `canUseCoupon`, `isCouponExpired`);
* `src/utils/optimizer.ts` — the schedule planner (`optimizeShoppingPlan`,
  `determineOptimalShopsPerWeek`, `optimizeSpendForCoupon`).

Modelling conventions:
* Currency amounts are rationals (`ℚ`); `Math.round(x * 100) / 100` is `round2`
  (Mathlib's `round` rounds halves up, exactly as JS `Math.round`).
* Calendar instants are day numbers (`ℤ`).  All date arithmetic in the source
  is whole-day (`setDate` additions, `+ 7 * 24 * 60 * 60 * 1000` ms), so a
  date is `startDate + n` for the appropriate day count `n`, and every
  comparison between `Date` objects coincides with the integer comparison.
* JavaScript objects held by reference in arrays are modelled by a heap:
  `PlanState.coupons` is the list of every coupon object ever created, and
  collections/references hold indices into it (`activeCoupons : List ℕ`,
  `ShoppingEntry.couponUsed/couponEarned : Option ℕ`).  Mutation of a coupon
  (`bestCoupon.used = true`) is an update of the heap at that index.
* The `Math.random()`-generated identifier string of a coupon is written but
  never read by the engine; coupon identity is its heap position (creation
  order).  Identifier strings are modelled by rendering the source's template
  `` `${type}-${earnedDate.getTime()}-${random}` `` with an arbitrary
  generator applied to the creation ordinal (`couponIdString`, `attachIds`).
* An entry's constant `status: 'planned'` field carries no information and is
  omitted from the record.
-/

namespace Dunnes

/-- Coupon tier: `'small' | 'large'` in `src/types`. -/
inductive CouponType where
  | small
  | large
deriving DecidableEq, Repr

/-- One tier of `COUPON_RULES` (couponRules.ts lines 8-22).  `maxSpend` is
present only on the `small` tier in the source and is never read. -/
structure TierRule where
  minSpend : ℚ
  maxSpend : Option ℚ
  couponValue : ℚ
  minUseSpend : ℚ
  validDays : ℤ
deriving DecidableEq, Repr

/-- `COUPON_RULES` (couponRules.ts lines 8-22). -/
def COUPON_RULES : CouponType → TierRule
  | .small =>
    { minSpend := 25, maxSpend := some (4999/100), couponValue := 5,
      minUseSpend := 25, validDays := 6 }
  | .large =>
    { minSpend := 50, maxSpend := none, couponValue := 10,
      minUseSpend := 50, validDays := 9 }

/-- A `Coupon` record (`src/types`), minus the write-only random identifier
string (see the module docstring; identity is heap position). -/
structure Coupon where
  type : CouponType
  value : ℚ
  minSpend : ℚ
  earnedDate : ℤ
  validFrom : ℤ
  validUntil : ℤ
  used : Bool
  usedDate : Option ℤ
deriving DecidableEq, Repr

/-- `createCoupon` (couponRules.ts lines 45-66): next-day activation, expiry
`validDays` after activation, `used` initialised to `false`. -/
def createCoupon (type : CouponType) (earnedDate : ℤ) : Coupon :=
  let rules := COUPON_RULES type
  let validFrom := earnedDate + 1
  let validUntil := validFrom + rules.validDays
  { type := type, value := rules.couponValue, minSpend := rules.minUseSpend,
    earnedDate := earnedDate, validFrom := validFrom, validUntil := validUntil,
    used := false, usedDate := none }

/-- `getCouponEarned` (couponRules.ts lines 30-37). -/
def getCouponEarned (spendAmount : ℚ) (earnedDate : ℤ) : Option Coupon :=
  if spendAmount ≥ (COUPON_RULES .large).minSpend then
    some (createCoupon .large earnedDate)
  else if spendAmount ≥ (COUPON_RULES .small).minSpend then
    some (createCoupon .small earnedDate)
  else
    none

/-- `canUseCoupon` (couponRules.ts lines 75-80). -/
def canUseCoupon (coupon : Coupon) (spendAmount : ℚ) (date : ℤ) : Bool :=
  !coupon.used &&
    decide (spendAmount ≥ coupon.minSpend) &&
    decide (date ≥ coupon.validFrom) &&
    decide (date ≤ coupon.validUntil)

/-- `isCouponExpired` (couponRules.ts lines 88-90). -/
def isCouponExpired (coupon : Coupon) (currentDate : ℤ) : Bool :=
  decide (currentDate > coupon.validUntil)

/-- A `ShoppingEntry` (`src/types`); `couponUsed`/`couponEarned` are heap
indices (object references in the source), `id` is the numeric part of
`` `entry-${entryId++}` ``. -/
structure ShoppingEntry where
  id : ℕ
  date : ℤ
  plannedAmount : ℚ
  couponEarned : Option ℕ
  couponUsed : Option ℕ
  savings : ℚ
deriving DecidableEq, Repr

/-- The mutable local state of `optimizeShoppingPlan` (optimizer.ts lines
9-19): the coupon heap, the `activeCoupons` array (as heap indices), the
`entries` array and the running totals/counters. -/
structure PlanState where
  coupons : List Coupon
  activeCoupons : List ℕ
  entries : List ShoppingEntry
  totalSpend : ℚ
  totalSavings : ℚ
  missedSavings : ℚ
  couponsEarned : ℕ
  couponsUsed : ℕ
  entryId : ℕ
deriving DecidableEq, Repr

/-- `OptimizationResult` (optimizer.ts lines 108-115), extended with the
coupon heap so the result can resolve the entries' coupon references (in the
source the entries hold the coupon objects themselves). -/
structure OptimizationResult where
  entries : List ShoppingEntry
  coupons : List Coupon
  totalSpend : ℚ
  totalSavings : ℚ
  missedSavings : ℚ
  couponsEarned : ℕ
  couponsUsed : ℕ
deriving DecidableEq, Repr

/-- Dereference a coupon heap index (out-of-range reads cannot occur in a
run; the default is irrelevant). -/
def heapGet (coupons : List Coupon) (i : ℕ) : Coupon :=
  coupons.getD i (createCoupon .small 0)

/-- `Math.round(x * 100) / 100` (optimizer.ts lines 91, 110-112). -/
def round2 (x : ℚ) : ℚ :=
  ((round (x * 100) : ℤ) : ℚ) / 100

/-- The filter predicate of optimizer.ts line 38: active coupon `i` has
expired (strictly before `date`) without being used. -/
def isExpiredUnused (coupons : List Coupon) (date : ℤ) (i : ℕ) : Bool :=
  decide (date > (heapGet coupons i).validUntil) && !(heapGet coupons i).used

/-- Expired-coupon sweep (optimizer.ts lines 38-43): collect the active,
unused coupons whose expiry is strictly before the event date, then for each
one add its value to missed savings and remove its first occurrence from the
active array (`indexOf` + `splice(index, 1)`). -/
def sweepExpired (coupons : List Coupon) (active : List ℕ) (date : ℤ) :
    List ℕ × ℚ :=
  let expired := active.filter (isExpiredUnused coupons date)
  expired.foldl
    (fun acc i => (acc.1.erase i, acc.2 + (heapGet coupons i).value))
    (active, 0)

/-- The sort comparator of optimizer.ts lines 48-51: descending by value,
ties broken by ascending expiry.  `couponSortLe a b` holds when `a` may
precede `b`. -/
def couponSortLe (coupons : List Coupon) (a b : ℕ) : Bool :=
  if (heapGet coupons a).value ≠ (heapGet coupons b).value then
    decide ((heapGet coupons b).value < (heapGet coupons a).value)
  else
    decide ((heapGet coupons a).validUntil ≤ (heapGet coupons b).validUntil)

/-- Insert `x` into an already-sorted list, after every element that may
precede it (so that elements comparing equal keep their original order). -/
def sortInsert (le : α → α → Bool) (x : α) : List α → List α
  | [] => [x]
  | y :: ys => if le y x then y :: sortInsert le x ys else x :: y :: ys

/-- Stable sort by the comparator `le`, as `Array.prototype.sort` (stable
per the ECMAScript specification).  The comparator used on coupons is a
total preorder, for which the stable sorted permutation is unique, so any
correct implementation computes this function. -/
def stableSort (le : α → α → Bool) (l : List α) : List α :=
  l.foldl (fun acc x => sortInsert le x acc) []

/-- The filter predicate of optimizer.ts line 47: coupon `i` is unused and
the event date lies inside its `[validFrom, validUntil]` window. -/
def isDateUsable (coupons : List Coupon) (date : ℤ) (i : ℕ) : Bool :=
  !(heapGet coupons i).used &&
    decide (date ≥ (heapGet coupons i).validFrom) &&
    decide (date ≤ (heapGet coupons i).validUntil)

/-- `usableCoupons` (optimizer.ts lines 46-51): the active coupons that are
unused and date-valid at the event date, sorted by the comparator. -/
def usableCoupons (coupons : List Coupon) (active : List ℕ) (date : ℤ) :
    List ℕ :=
  stableSort (couponSortLe coupons) (active.filter (isDateUsable coupons date))

/-- `determineOptimalShopsPerWeek` (optimizer.ts lines 123-130). -/
def determineOptimalShopsPerWeek (weeklyBudget : ℚ) : ℕ :=
  if weeklyBudget ≥ 100 then 2
  else if weeklyBudget ≥ 75 then (if weeklyBudget ≥ 90 then 2 else 1)
  else 1

/-- `optimizeSpendForCoupon` (optimizer.ts lines 136-150). -/
def optimizeSpendForCoupon (plannedAmount : ℚ) (remainingBudget : ℚ) : ℚ :=
  if plannedAmount ≥ 45 ∧ plannedAmount < 50 ∧ remainingBudget ≥ 50 then 50
  else if plannedAmount ≥ 50 then max 50 plannedAmount
  else if plannedAmount ≥ 20 ∧ plannedAmount < 25 ∧ remainingBudget ≥ 25 then 25
  else if plannedAmount ≥ 25 ∧ plannedAmount < 50 then min (4999/100 : ℚ) plannedAmount
  else plannedAmount

/-- Mark the heap coupon at `i` used at `date` (optimizer.ts lines 70-71). -/
def setUsed (coupons : List Coupon) (i : ℕ) (date : ℤ) : List Coupon :=
  coupons.set i { heapGet coupons i with used := true, usedDate := some date }

/-- The sum of planned amounts of the existing entries dated inside the
current week (optimizer.ts lines 55-57). -/
def weekSpentSoFar (entries : List ShoppingEntry) (weekStartDate : ℤ) : ℚ :=
  (entries.filter fun e =>
      decide (e.date ≥ weekStartDate) && decide (e.date < weekStartDate + 7)).foldl
    (fun sum e => sum + e.plannedAmount) 0

/-- The event-date offset within the week (optimizer.ts line 34): the first
shop is on the week start; with 2 shops the second is `⌊6/1⌋·1 = 6` days
later.  (`shopsThisWeek - 1 = 0` cannot be reached with `shopInWeek ≠ 0`.) -/
def shopDayOffset (shopsThisWeek shopInWeek : ℕ) : ℤ :=
  if shopInWeek = 0 then 0 else ((6 / (shopsThisWeek - 1)) * shopInWeek : ℕ)

/-- The tentative spend of a shop (optimizer.ts lines 55-59): the remaining
weekly amount split evenly over the remaining shop slots of the week. -/
def tentativeAmount (weeklyAmount : ℚ) (entries : List ShoppingEntry)
    (weekStartDate : ℤ) (shopsThisWeek shopInWeek : ℕ) : ℚ :=
  (weeklyAmount - weekSpentSoFar entries weekStartDate) /
    ((shopsThisWeek : ℚ) - (shopInWeek : ℚ))

/-- The redemption decision (optimizer.ts lines 64-66): the head of the
sorted usable list, provided the tentative spend meets its minimum. -/
def bestRedemption (coupons : List Coupon) (active1 : List ℕ) (date : ℤ)
    (plannedAmount0 : ℚ) : Option ℕ :=
  match (usableCoupons coupons active1 date).head? with
  | some best =>
    if plannedAmount0 ≥ (heapGet coupons best).minSpend then some best
    else none
  | none => none

/-- One iteration of the inner shop loop (optimizer.ts lines 31-103): date
placement, expiry sweep, greedy redemption, spend sizing and nudging, clamp,
reward earning, and entry emission. -/
def processShop (totalBudget : ℚ) (weekStartDate : ℤ) (weeklyAmount : ℚ)
    (shopsThisWeek shopInWeek : ℕ) (st : PlanState) : PlanState :=
  let entryDate := weekStartDate + shopDayOffset shopsThisWeek shopInWeek
  let sweep := sweepExpired st.coupons st.activeCoupons entryDate
  let active1 := sweep.1
  let missedSavings1 := st.missedSavings + sweep.2
  let remainingBudget := totalBudget - st.totalSpend
  let plannedAmount0 :=
    tentativeAmount weeklyAmount st.entries weekStartDate shopsThisWeek shopInWeek
  let redeemed : Option ℕ :=
    bestRedemption st.coupons active1 entryDate plannedAmount0
  let savings : ℚ :=
    match redeemed with
    | some best => (heapGet st.coupons best).value
    | none => 0
  let plannedAmount1 : ℚ :=
    match redeemed with
    | some best => max plannedAmount0 (heapGet st.coupons best).minSpend
    | none => plannedAmount0
  let coupons1 :=
    match redeemed with
    | some best => setUsed st.coupons best entryDate
    | none => st.coupons
  let couponsUsed1 :=
    match redeemed with
    | some _ => st.couponsUsed + 1
    | none => st.couponsUsed
  let plannedAmount2 := optimizeSpendForCoupon plannedAmount1 remainingBudget
  let plannedAmount3 := min plannedAmount2 remainingBudget
  let earned := getCouponEarned plannedAmount3 entryDate
  let couponEarnedIdx : Option ℕ :=
    match earned with
    | some _ => some coupons1.length
    | none => none
  let coupons2 :=
    match earned with
    | some c => coupons1 ++ [c]
    | none => coupons1
  let active2 :=
    match earned with
    | some _ => active1 ++ [coupons1.length]
    | none => active1
  let couponsEarned1 :=
    match earned with
    | some _ => st.couponsEarned + 1
    | none => st.couponsEarned
  let entry : ShoppingEntry :=
    { id := st.entryId, date := entryDate, plannedAmount := round2 plannedAmount3,
      couponEarned := couponEarnedIdx, couponUsed := redeemed, savings := savings }
  { coupons := coupons2, activeCoupons := active2,
    entries := st.entries ++ [entry],
    totalSpend := st.totalSpend + plannedAmount3,
    totalSavings := st.totalSavings + savings,
    missedSavings := missedSavings1,
    couponsEarned := couponsEarned1, couponsUsed := couponsUsed1,
    entryId := st.entryId + 1 }

/-- The inner shop loop of a week (optimizer.ts lines 31-103) with its
`break` when the running spend reaches the total budget (line 102); the
returned flag reports that break for the outer loop's identical test
(line 105). -/
def runWeekShops (totalBudget : ℚ) (weekStartDate : ℤ) (weeklyAmount : ℚ)
    (shopsThisWeek : ℕ) (st : PlanState) : PlanState × Bool :=
  (List.range shopsThisWeek).foldl
    (fun acc shopInWeek =>
      if acc.2 then acc
      else
        let st1 :=
          processShop totalBudget weekStartDate weeklyAmount shopsThisWeek
            shopInWeek acc.1
        (st1, decide (st1.totalSpend ≥ totalBudget)))
    (st, false)

/-- The outer week loop (optimizer.ts lines 22-106), recursing on the number
of weeks left; `week` is the current index.  The `weeklyAmount ≤ 0` guard
(line 27) and the total-budget test (line 105) both `break` out of the
loop. -/
def runWeeks (weeklyBudget totalBudget : ℚ) (startDate : ℤ) :
    ℕ → ℕ → PlanState → PlanState
  | _, 0, st => st
  | week, weeksLeft + 1, st =>
    let weekStartDate := startDate + 7 * (week : ℤ)
    let weeklyAmount := min weeklyBudget (totalBudget - st.totalSpend)
    if weeklyAmount ≤ 0 then st
    else
      let res :=
        runWeekShops totalBudget weekStartDate weeklyAmount
          (determineOptimalShopsPerWeek weeklyAmount) st
      if res.2 then res.1
      else runWeeks weeklyBudget totalBudget startDate (week + 1) weeksLeft res.1

/-- The initial local state of `optimizeShoppingPlan` (lines 9-19). -/
def initState : PlanState :=
  { coupons := [], activeCoupons := [], entries := [], totalSpend := 0,
    totalSavings := 0, missedSavings := 0, couponsEarned := 0,
    couponsUsed := 0, entryId := 0 }

/-- `optimizeShoppingPlan` (optimizer.ts lines 8-116): 10 weeks, total
budget `weeklyBudget * 10`, final totals rounded to cents. -/
def optimizeShoppingPlan (weeklyBudget : ℚ) (startDate : ℤ) :
    OptimizationResult :=
  let totalBudget := weeklyBudget * 10
  let st := runWeeks weeklyBudget totalBudget startDate 0 10 initState
  { entries := st.entries, coupons := st.coupons,
    totalSpend := round2 st.totalSpend,
    totalSavings := round2 st.totalSavings,
    missedSavings := round2 st.missedSavings,
    couponsEarned := st.couponsEarned, couponsUsed := st.couponsUsed }

/-- The identifier-string template of couponRules.ts line 57,
`` `${type}-${earnedDate.getTime()}-${randomPart}` ``, with the
`Math.random()`-derived part abstracted. -/
def couponIdString (type : CouponType) (earnedDate : ℤ) (randomPart : String) :
    String :=
  (match type with | .small => "small" | .large => "large") ++ "-" ++
    toString earnedDate ++ "-" ++ randomPart

/-- A coupon together with its rendered identifier string. -/
structure CouponWithId where
  id : String
  coupon : Coupon
deriving DecidableEq, Repr

/-- `OptimizationResult` with identifier strings attached to the coupons. -/
structure ResultWithIds where
  entries : List ShoppingEntry
  coupons : List CouponWithId
  totalSpend : ℚ
  totalSavings : ℚ
  missedSavings : ℚ
  couponsEarned : ℕ
  couponsUsed : ℕ
deriving DecidableEq, Repr

/-- Attach identifier strings: the coupon created `k`-th receives the
template rendered with generator output `g k` (modelling the independent
`Math.random()` draw of that creation). -/
def attachIds (g : ℕ → String) (r : OptimizationResult) : ResultWithIds :=
  { entries := r.entries,
    coupons := r.coupons.enum.map fun p =>
      { id := couponIdString p.2.type p.2.earnedDate (g p.1), coupon := p.2 },
    totalSpend := r.totalSpend, totalSavings := r.totalSavings,
    missedSavings := r.missedSavings, couponsEarned := r.couponsEarned,
    couponsUsed := r.couponsUsed }

/-- `optimizeShoppingPlan` as observed by a caller, identifiers included:
one fresh generator draw per coupon creation. -/
def optimizeShoppingPlanWithIds (g : ℕ → String) (weeklyBudget : ℚ)
    (startDate : ℤ) : ResultWithIds :=
  attachIds g (optimizeShoppingPlan weeklyBudget startDate)

/-- Erase the identifier strings from a result. -/
def stripIds (r : ResultWithIds) : OptimizationResult :=
  { entries := r.entries, coupons := r.coupons.map (·.coupon),
    totalSpend := r.totalSpend, totalSavings := r.totalSavings,
    missedSavings := r.missedSavings, couponsEarned := r.couponsEarned,
    couponsUsed := r.couponsUsed }

/-- The threshold-seeking adjustment exactly as the specification words it:
five cases tried in order (50 on [45,50) with ≥ 50 budget left; floor at 50;
25 on [20,25) with ≥ 25 budget left; cap at 49.99 on [25,50); unchanged). -/
def nudgeSpec (s r : ℚ) : ℚ :=
  if 45 ≤ s ∧ s < 50 ∧ 50 ≤ r then 50
  else if 50 ≤ s then max 50 s
  else if 20 ≤ s ∧ s < 25 ∧ 25 ≤ r then 25
  else if 25 ≤ s ∧ s < 50 then min (4999/100 : ℚ) s
  else s

/- Core Lean marks the rational field operations `[irreducible]`, which
blocks `decide`'s evaluation of concrete runs of the planner; proofs by
`decide` below need them unfolded. -/
attribute [local semireducible] Rat.add Rat.mul Rat.sub Rat.inv

/-! ## Basic facts about `round2` -/

theorem round2_sub_le (x : ℚ) : x - 1/200 ≤ round2 x ∧ round2 x ≤ x + 1/200 := by
  have h := abs_sub_round (x * 100)
  rw [abs_le] at h
  constructor
  · rw [round2, le_div_iff (by norm_num : (0:ℚ) < 100)]
    linarith [h.2]
  · rw [round2, div_le_iff (by norm_num : (0:ℚ) < 100)]
    linarith [h.1]

theorem round2_mono {x y : ℚ} (h : x ≤ y) : round2 x ≤ round2 y := by
  have hr : round (x * 100) ≤ round (y * 100) := by
    rw [round_eq, round_eq]
    exact Int.floor_le_floor (by linarith)
  rw [round2, round2]
  have : ((round (x * 100) : ℤ) : ℚ) ≤ ((round (y * 100) : ℤ) : ℚ) := by
    exact_mod_cast hr
  linarith

theorem round2_intCast (n : ℤ) : round2 (n : ℚ) = n := by
  rw [round2]
  have : ((n : ℚ) * 100) = ((n * 100 : ℤ) : ℚ) := by push_cast; ring
  rw [this, round_intCast]
  push_cast
  field_simp

/-! ## Claim theorems -/

/-- C3: `getCouponEarned` classifies spends exactly by the 50/25 thresholds:
a `large` coupon iff spend ≥ 50, a `small` coupon iff 25 ≤ spend < 50, and
no coupon iff spend < 25 (the ≥ 50 test runs first, so large takes
precedence). -/
theorem claim_C3_threshold_classification (s : ℚ) (t : ℤ) :
    ((∃ c, getCouponEarned s t = some c ∧ c.type = CouponType.large) ↔ 50 ≤ s) ∧
    ((∃ c, getCouponEarned s t = some c ∧ c.type = CouponType.small) ↔
      25 ≤ s ∧ s < 50) ∧
    (getCouponEarned s t = none ↔ s < 25) := by
  have hL : (COUPON_RULES CouponType.large).minSpend = 50 := rfl
  have hS : (COUPON_RULES CouponType.small).minSpend = 25 := rfl
  have hLty : (createCoupon CouponType.large t).type = CouponType.large := rfl
  have hSty : (createCoupon CouponType.small t).type = CouponType.small := rfl
  unfold getCouponEarned
  rw [hL, hS]
  split_ifs with h1 h2
  · refine ⟨⟨fun _ => h1, fun _ => ⟨_, rfl, hLty⟩⟩, ⟨?_, ?_⟩, ⟨?_, ?_⟩⟩
    · rintro ⟨c, hc, hty⟩
      obtain rfl := Option.some.inj hc
      rw [hLty] at hty
      cases hty
    · rintro ⟨-, hlt⟩
      exact absurd h1 (not_le.mpr hlt)
    · intro hc
      cases hc
    · intro h
      linarith
  · refine ⟨⟨?_, ?_⟩, ⟨fun _ => ⟨h2, not_le.mp h1⟩, fun _ => ⟨_, rfl, hSty⟩⟩,
      ⟨?_, ?_⟩⟩
    · rintro ⟨c, hc, hty⟩
      obtain rfl := Option.some.inj hc
      rw [hSty] at hty
      cases hty
    · intro h
      exact absurd h h1
    · intro hc
      cases hc
    · intro h
      linarith
  · refine ⟨⟨?_, ?_⟩, ⟨?_, ?_⟩, ⟨fun _ => not_le.mp h2, fun _ => rfl⟩⟩
    · rintro ⟨c, hc, -⟩
      cases hc
    · intro h
      exact absurd (le_trans (by norm_num) h) h2
    · rintro ⟨c, hc, -⟩
      cases hc
    · rintro ⟨h, -⟩
      exact absurd h h2

/-- C4: a coupon earned on day `D` activates on `D + 1`, expires on `D + 7`
(small) or `D + 10` (large), and starts out unused. -/
theorem claim_C4_activation_expiry (type : CouponType) (D : ℤ) :
    (createCoupon type D).validFrom = D + 1 ∧
    (createCoupon CouponType.small D).validUntil = D + 7 ∧
    (createCoupon CouponType.large D).validUntil = D + 10 ∧
    (createCoupon type D).used = false := by
  cases type <;> refine ⟨rfl, ?_, ?_, rfl⟩ <;>
    simp [createCoupon, COUPON_RULES] <;> try ring

/-- C7: the shops-per-week rule realises the spec's four cases (≥ 100 → 2,
[90,100) → 2, [75,90) → 1, otherwise → 1), i.e. two shops exactly when the
weekly budget is at least 90. -/
theorem claim_C7_shops_per_week (w : ℚ) (hw : 0 < w) :
    determineOptimalShopsPerWeek w =
      (if 100 ≤ w then 2 else if 90 ≤ w ∧ w < 100 then 2
       else if 75 ≤ w ∧ w < 90 then 1 else 1) ∧
    determineOptimalShopsPerWeek w = (if 90 ≤ w then 2 else 1) := by
  clear hw
  have net : determineOptimalShopsPerWeek w = if 90 ≤ w then 2 else 1 := by
    unfold determineOptimalShopsPerWeek
    split_ifs <;> first | rfl | linarith
  refine ⟨?_, net⟩
  rw [net]
  rcases le_or_lt 100 w with hA | hA <;> rcases le_or_lt 90 w with hB | hB <;>
    rcases le_or_lt 75 w with hC | hC
  · simp [hA, hB, not_lt.mpr hA]
  · linarith
  · linarith
  · linarith
  · simp [hB, hA, not_le.mpr hA]
  · linarith
  · simp [hC, not_le.mpr hA, not_le.mpr hB]
  · simp [not_le.mpr hA, not_le.mpr hB, not_le.mpr hC]

theorem claim_C7_shops_per_week_witness :
    (0:ℚ) < 95 ∧
      (determineOptimalShopsPerWeek 95 =
        (if 100 ≤ (95:ℚ) then 2 else if 90 ≤ (95:ℚ) ∧ (95:ℚ) < 100 then 2
         else if 75 ≤ (95:ℚ) ∧ (95:ℚ) < 90 then 1 else 1) ∧
       determineOptimalShopsPerWeek 95 = (if 90 ≤ (95:ℚ) then 2 else 1)) :=
  ⟨by norm_num, claim_C7_shops_per_week 95 (by norm_num)⟩

/-- C8: the threshold-seeking adjustment of the planner is exactly the
five-case function stated by the spec (cases tried in order), and the value
the planner then records is that function's output clamped to the remaining
overall budget. -/
theorem claim_C8_nudge_cases (s r : ℚ) :
    optimizeSpendForCoupon s r = nudgeSpec s r ∧
    min (optimizeSpendForCoupon s r) r = min (nudgeSpec s r) r :=
  ⟨rfl, rfl⟩

/-- C9: a non-positive budget makes the very first week's guard fail, so the
plan is empty with all totals zero and no error path is involved. -/
theorem claim_C9_nonpositive_budget (b : ℚ) (d : ℤ) (hb : b ≤ 0) :
    optimizeShoppingPlan b d =
      { entries := [], coupons := [], totalSpend := 0, totalSavings := 0,
        missedSavings := 0, couponsEarned := 0, couponsUsed := 0 } := by
  have hstop : min b (b * 10 - initState.totalSpend) ≤ 0 :=
    le_trans (min_le_left _ _) hb
  have hrun : runWeeks b (b * 10) d 0 10 initState = initState := by
    show (let weekStartDate := d + 7 * ((0:ℕ) : ℤ)
          let weeklyAmount := min b (b * 10 - initState.totalSpend)
          if weeklyAmount ≤ 0 then initState
          else
            let res :=
              runWeekShops (b * 10) weekStartDate weeklyAmount
                (determineOptimalShopsPerWeek weeklyAmount) initState
            if res.2 then res.1
            else runWeeks b (b * 10) d (0 + 1) 9 res.1) = initState
    simp only [if_pos hstop]
  have hz : round2 0 = 0 := round2_intCast 0
  show ({ entries := (runWeeks b (b * 10) d 0 10 initState).entries,
          coupons := (runWeeks b (b * 10) d 0 10 initState).coupons,
          totalSpend := round2 (runWeeks b (b * 10) d 0 10 initState).totalSpend,
          totalSavings := round2 (runWeeks b (b * 10) d 0 10 initState).totalSavings,
          missedSavings := round2 (runWeeks b (b * 10) d 0 10 initState).missedSavings,
          couponsEarned := (runWeeks b (b * 10) d 0 10 initState).couponsEarned,
          couponsUsed := (runWeeks b (b * 10) d 0 10 initState).couponsUsed } :
        OptimizationResult) = _
  rw [hrun]
  simp [initState, hz]

theorem claim_C9_nonpositive_budget_witness :
    (-5 : ℚ) ≤ 0 ∧
      optimizeShoppingPlan (-5) 3 =
        { entries := [], coupons := [], totalSpend := 0, totalSavings := 0,
          missedSavings := 0, couponsEarned := 0, couponsUsed := 0 } :=
  ⟨by norm_num, claim_C9_nonpositive_budget (-5) 3 (by norm_num)⟩

/-! ## Heap access lemmas -/

theorem heapGet_append {l l' : List Coupon} {j : ℕ}
    (h : j < l.length) : heapGet (l ++ l') j = heapGet l j := by
  unfold heapGet
  exact List.getD_append _ _ _ _ h

theorem setUsed_length (cs : List Coupon) (i : ℕ) (d : ℤ) :
    (setUsed cs i d).length = cs.length :=
  List.length_set _ _ _

theorem heapGet_setUsed_self {cs : List Coupon} {i : ℕ} (d : ℤ)
    (h : i < cs.length) :
    heapGet (setUsed cs i d) i =
      { heapGet cs i with used := true, usedDate := some d } := by
  unfold heapGet setUsed
  rw [List.getD_eq_getElem?_getD, List.getElem?_set_self h]
  rfl

theorem heapGet_setUsed_ne {cs : List Coupon} {i j : ℕ} (d : ℤ) (h : i ≠ j) :
    heapGet (setUsed cs i d) j = heapGet cs j := by
  unfold heapGet setUsed
  rw [List.getD_eq_getElem?_getD, List.getElem?_set_ne h,
    ← List.getD_eq_getElem?_getD]

/-! ## The expiry sweep computes a filter -/

theorem sweep_foldl_pair (v : ℕ → ℚ) (xs : List ℕ) :
    ∀ (a : List ℕ) (q : ℚ),
      xs.foldl (fun acc i => (acc.1.erase i, acc.2 + v i)) (a, q) =
        (xs.foldl (fun acc i => acc.erase i) a, q + ((xs.map v).sum)) := by
  induction xs with
  | nil => intro a q; simp
  | cons x xs ih =>
    intro a q
    simp only [List.foldl_cons, List.map_cons, List.sum_cons]
    rw [ih]
    ring_nf

theorem sweepExpired_fst (coupons : List Coupon) (active : List ℕ) (date : ℤ)
    (hnd : active.Nodup) :
    (sweepExpired coupons active date).1 =
      active.filter (fun i => !(isExpiredUnused coupons date i)) := by
  unfold sweepExpired
  rw [sweep_foldl_pair, ← List.diff_eq_foldl, hnd.diff_eq_filter]
  refine List.filter_congr fun x hx => ?_
  by_cases hp : isExpiredUnused coupons date x
  · simp [List.mem_filter, hx, hp]
  · simp [List.mem_filter, hp]

theorem sweepExpired_snd (coupons : List Coupon) (active : List ℕ)
    (date : ℤ) :
    (sweepExpired coupons active date).2 =
      (((active.filter (isExpiredUnused coupons date)).map
          (fun i => (heapGet coupons i).value)).sum) := by
  unfold sweepExpired
  rw [sweep_foldl_pair]
  simp

theorem sweepExpired_fst_sublist (coupons : List Coupon) (active : List ℕ)
    (date : ℤ) : (sweepExpired coupons active date).1.Sublist active := by
  unfold sweepExpired
  rw [sweep_foldl_pair, ← List.diff_eq_foldl]
  exact List.diff_sublist _ _

/-- The active list after a shop is the swept list plus possibly one freshly
created coupon, whose heap index is at least the old heap length. -/
theorem processShop_activeCoupons (totalBudget : ℚ) (weekStartDate : ℤ)
    (weeklyAmount : ℚ) (shopsThisWeek shopInWeek : ℕ) (st : PlanState) :
    ∃ tail,
      (processShop totalBudget weekStartDate weeklyAmount shopsThisWeek
          shopInWeek st).activeCoupons =
        (sweepExpired st.coupons st.activeCoupons
            (weekStartDate + shopDayOffset shopsThisWeek shopInWeek)).1 ++
          tail ∧
      ∀ j ∈ tail, st.coupons.length ≤ j := by
  simp only [processShop]
  split
  · refine ⟨_, rfl, ?_⟩
    intro j hj
    rw [List.mem_singleton] at hj
    subst hj
    split
    · rw [setUsed_length]
    · exact le_refl _
  · exact ⟨[], by simp, by simp⟩

/-- The missed-savings accumulator only changes through the sweep. -/
theorem processShop_missedSavings (totalBudget : ℚ) (weekStartDate : ℤ)
    (weeklyAmount : ℚ) (shopsThisWeek shopInWeek : ℕ) (st : PlanState) :
    (processShop totalBudget weekStartDate weeklyAmount shopsThisWeek
        shopInWeek st).missedSavings =
      st.missedSavings +
        (sweepExpired st.coupons st.activeCoupons
            (weekStartDate + shopDayOffset shopsThisWeek shopInWeek)).2 :=
  rfl

/-- C6: before an event is processed, exactly the unused active coupons whose
expiry is strictly before the event date leave the active set, their summed
value is added to missed savings, and none of them is in the active set
afterwards (so each contributes exactly once). -/
theorem claim_C6_expiry_sweep (totalBudget : ℚ) (weekStartDate : ℤ)
    (weeklyAmount : ℚ) (shopsThisWeek shopInWeek : ℕ) (st : PlanState)
    (hnd : st.activeCoupons.Nodup)
    (hbound : ∀ i ∈ st.activeCoupons, i < st.coupons.length) :
    (sweepExpired st.coupons st.activeCoupons
        (weekStartDate + shopDayOffset shopsThisWeek shopInWeek)).1 =
      st.activeCoupons.filter
        (fun i => !(isExpiredUnused st.coupons
          (weekStartDate + shopDayOffset shopsThisWeek shopInWeek) i)) ∧
    (sweepExpired st.coupons st.activeCoupons
        (weekStartDate + shopDayOffset shopsThisWeek shopInWeek)).2 =
      (((st.activeCoupons.filter (isExpiredUnused st.coupons
            (weekStartDate + shopDayOffset shopsThisWeek shopInWeek))).map
          (fun i => (heapGet st.coupons i).value)).sum) ∧
    (processShop totalBudget weekStartDate weeklyAmount shopsThisWeek
        shopInWeek st).missedSavings =
      st.missedSavings +
        (sweepExpired st.coupons st.activeCoupons
            (weekStartDate + shopDayOffset shopsThisWeek shopInWeek)).2 ∧
    ∀ i ∈ st.activeCoupons,
      isExpiredUnused st.coupons
          (weekStartDate + shopDayOffset shopsThisWeek shopInWeek) i = true →
        i ∉ (processShop totalBudget weekStartDate weeklyAmount shopsThisWeek
            shopInWeek st).activeCoupons := by
  refine ⟨sweepExpired_fst _ _ _ hnd, sweepExpired_snd _ _ _,
    processShop_missedSavings _ _ _ _ _ _, ?_⟩
  intro i hi hexp hmem
  obtain ⟨tail, htail, hge⟩ :=
    processShop_activeCoupons totalBudget weekStartDate weeklyAmount
      shopsThisWeek shopInWeek st
  rw [htail, List.mem_append] at hmem
  rcases hmem with hmem | hmem
  · rw [sweepExpired_fst _ _ _ hnd, List.mem_filter] at hmem
    rw [hexp] at hmem
    simp at hmem
  · exact absurd (hbound i hi) (not_lt.mpr (hge i hmem))

/-! ## The stable sort: membership, sortedness, head optimality -/

theorem mem_sortInsert {α : Type _} (le : α → α → Bool) (x z : α)
    (l : List α) : z ∈ sortInsert le x l ↔ z = x ∨ z ∈ l := by
  induction l with
  | nil => simp [sortInsert]
  | cons y ys ih =>
    simp only [sortInsert]
    by_cases hle : le y x = true
    · rw [if_pos hle]
      simp only [List.mem_cons, ih]
      try tauto
    · rw [if_neg hle]
      simp only [List.mem_cons]
      try tauto

theorem mem_stableSort_aux {α : Type _} (le : α → α → Bool) (l : List α) :
    ∀ (acc : List α) (z : α),
      z ∈ l.foldl (fun a x => sortInsert le x a) acc ↔ z ∈ acc ∨ z ∈ l := by
  induction l with
  | nil => simp
  | cons x xs ih =>
    intro acc z
    simp only [List.foldl_cons, ih, mem_sortInsert, List.mem_cons]
    tauto

theorem mem_stableSort {α : Type _} (le : α → α → Bool) (l : List α) (z : α) :
    z ∈ stableSort le l ↔ z ∈ l := by
  simp [stableSort, mem_stableSort_aux]

theorem pairwise_sortInsert {α : Type _} {le : α → α → Bool}
    (htrans : ∀ a b c, le a b = true → le b c = true → le a c = true)
    (htot : ∀ a b, le a b = true ∨ le b a = true) (x : α) (l : List α)
    (h : l.Pairwise (fun a b => le a b = true)) :
    (sortInsert le x l).Pairwise (fun a b => le a b = true) := by
  induction l with
  | nil => simp [sortInsert]
  | cons y ys ih =>
    obtain ⟨hy, hys⟩ := List.pairwise_cons.mp h
    simp only [sortInsert]
    by_cases hle : le y x = true
    · rw [if_pos hle]
      refine List.pairwise_cons.mpr ⟨?_, ih hys⟩
      intro z hz
      rcases (mem_sortInsert le x z ys).mp hz with rfl | hz
      · exact hle
      · exact hy z hz
    · rw [if_neg hle]
      have hxy : le x y = true := (htot x y).resolve_right hle
      refine List.pairwise_cons.mpr ⟨?_, List.pairwise_cons.mpr ⟨hy, hys⟩⟩
      intro z hz
      rcases List.mem_cons.mp hz with rfl | hz
      · exact hxy
      · exact htrans x y z hxy (hy z hz)

theorem pairwise_stableSort {α : Type _} {le : α → α → Bool}
    (htrans : ∀ a b c, le a b = true → le b c = true → le a c = true)
    (htot : ∀ a b, le a b = true ∨ le b a = true) (l : List α) :
    (stableSort le l).Pairwise (fun a b => le a b = true) := by
  suffices h : ∀ (acc : List α), acc.Pairwise (fun a b => le a b = true) →
      (l.foldl (fun a x => sortInsert le x a) acc).Pairwise
        (fun a b => le a b = true) from h [] List.Pairwise.nil
  induction l with
  | nil => intro acc hacc; simpa using hacc
  | cons x xs ih =>
    intro acc hacc
    exact ih _ (pairwise_sortInsert htrans htot x acc hacc)

theorem stableSort_head_le {α : Type _} {le : α → α → Bool}
    (htrans : ∀ a b c, le a b = true → le b c = true → le a c = true)
    (htot : ∀ a b, le a b = true ∨ le b a = true) {l : List α} {h : α}
    (hh : (stableSort le l).head? = some h) :
    h ∈ l ∧ ∀ z ∈ l, le h z = true := by
  obtain ⟨t, ht⟩ : ∃ t, stableSort le l = h :: t := by
    cases e : stableSort le l with
    | nil => rw [e] at hh; cases hh
    | cons a t =>
      rw [e] at hh
      injection hh with hh
      subst hh
      exact ⟨t, rfl⟩
  refine ⟨(mem_stableSort le l h).mp (by rw [ht]; exact List.mem_cons_self _ _), ?_⟩
  intro z hz
  have hz' : z ∈ h :: t := by rw [← ht]; exact (mem_stableSort le l z).mpr hz
  rcases List.mem_cons.mp hz' with rfl | hz'
  · rcases htot z z with hzz | hzz <;> exact hzz
  · have hp := @pairwise_stableSort _ le htrans htot l
    rw [ht] at hp
    exact (List.pairwise_cons.mp hp).1 z hz'

/-! ## The coupon comparator is a total preorder -/

theorem couponSortLe_total (cs : List Coupon) (a b : ℕ) :
    couponSortLe cs a b = true ∨ couponSortLe cs b a = true := by
  unfold couponSortLe
  by_cases h : (heapGet cs a).value = (heapGet cs b).value
  · rw [if_neg (not_ne_iff.mpr h), if_neg (not_ne_iff.mpr h.symm)]
    rcases le_total (heapGet cs a).validUntil (heapGet cs b).validUntil with
      hle | hle
    · exact Or.inl (by simpa using hle)
    · exact Or.inr (by simpa using hle)
  · rw [if_pos h, if_pos (Ne.symm h)]
    rcases lt_or_gt_of_ne h with hlt | hlt
    · exact Or.inr (by simpa using hlt)
    · exact Or.inl (by simpa using hlt)

theorem couponSortLe_trans (cs : List Coupon) (a b c : ℕ)
    (hab : couponSortLe cs a b = true) (hbc : couponSortLe cs b c = true) :
    couponSortLe cs a c = true := by
  unfold couponSortLe at *
  by_cases h1 : (heapGet cs a).value = (heapGet cs b).value <;>
    by_cases h2 : (heapGet cs b).value = (heapGet cs c).value
  · rw [if_neg (not_ne_iff.mpr h1)] at hab
    rw [if_neg (not_ne_iff.mpr h2)] at hbc
    rw [if_neg (not_ne_iff.mpr (h1.trans h2))]
    rw [decide_eq_true_eq] at hab hbc ⊢
    exact le_trans hab hbc
  · rw [if_pos h2] at hbc
    rw [if_pos (h1 ▸ h2)]
    rw [decide_eq_true_eq] at hbc ⊢
    exact h1 ▸ hbc
  · rw [if_pos h1] at hab
    rw [if_pos (fun hh : (heapGet cs a).value = (heapGet cs c).value =>
      h1 (hh.trans h2.symm))]
    rw [decide_eq_true_eq] at hab ⊢
    exact h2 ▸ hab
  · rw [if_pos h1] at hab
    rw [if_pos h2] at hbc
    rw [decide_eq_true_eq] at hab hbc
    rw [if_pos (ne_of_gt (lt_trans hbc hab)), decide_eq_true_eq]
    exact lt_trans hbc hab

theorem couponSortLe_dest (cs : List Coupon) (i j : ℕ)
    (h : couponSortLe cs i j = true) :
    (heapGet cs j).value ≤ (heapGet cs i).value ∧
      ((heapGet cs j).value = (heapGet cs i).value →
        (heapGet cs i).validUntil ≤ (heapGet cs j).validUntil) := by
  unfold couponSortLe at h
  by_cases hv : (heapGet cs i).value = (heapGet cs j).value
  · rw [if_neg (not_ne_iff.mpr hv), decide_eq_true_eq] at h
    exact ⟨le_of_eq hv.symm, fun _ => h⟩
  · rw [if_pos hv, decide_eq_true_eq] at h
    exact ⟨le_of_lt h, fun he => absurd he.symm hv⟩

/-- What a successful redemption decision guarantees: the chosen index is an
active, unused, date-valid coupon whose minimum the tentative spend meets,
and it sorts before every date-valid active coupon. -/
theorem bestRedemption_spec (cs : List Coupon) (active1 : List ℕ) (date : ℤ)
    (p0 : ℚ) (i : ℕ) (h : bestRedemption cs active1 date p0 = some i) :
    i ∈ active1 ∧ isDateUsable cs date i = true ∧
      (heapGet cs i).minSpend ≤ p0 ∧
      ∀ j ∈ active1, isDateUsable cs date j = true →
        couponSortLe cs i j = true := by
  unfold bestRedemption at h
  rcases hh : (usableCoupons cs active1 date).head? with _ | best
  · rw [hh] at h; cases h
  · rw [hh] at h
    dsimp only at h
    by_cases hmin : p0 ≥ (heapGet cs best).minSpend
    · rw [if_pos hmin] at h
      injection h with h
      subst h
      have hh' : (stableSort (couponSortLe cs)
          (active1.filter (isDateUsable cs date))).head? = some best := hh
      obtain ⟨hmem, hall⟩ :=
        stableSort_head_le (couponSortLe_trans cs) (couponSortLe_total cs) hh'
      obtain ⟨hact, husable⟩ := List.mem_filter.mp hmem
      refine ⟨hact, husable, hmin, ?_⟩
      intro j hj hju
      exact hall j (List.mem_filter.mpr ⟨hj, hju⟩)
    · rw [if_neg hmin] at h
      cases h

/-- The entry a shop emits, field by field (the `redeemed` decision, the
event date, the recorded amount after max/nudge/clamp/rounding). -/
theorem processShop_entry (totalBudget : ℚ) (weekStartDate : ℤ)
    (weeklyAmount : ℚ) (shopsThisWeek shopInWeek : ℕ) (st : PlanState) :
    ∃ e, (processShop totalBudget weekStartDate weeklyAmount shopsThisWeek
        shopInWeek st).entries = st.entries ++ [e] ∧
      e.couponUsed = bestRedemption st.coupons
        (sweepExpired st.coupons st.activeCoupons
          (weekStartDate + shopDayOffset shopsThisWeek shopInWeek)).1
        (weekStartDate + shopDayOffset shopsThisWeek shopInWeek)
        (tentativeAmount weeklyAmount st.entries weekStartDate shopsThisWeek
          shopInWeek) ∧
      e.date = weekStartDate + shopDayOffset shopsThisWeek shopInWeek ∧
      e.plannedAmount = round2 (min
        (optimizeSpendForCoupon
          (match bestRedemption st.coupons
              (sweepExpired st.coupons st.activeCoupons
                (weekStartDate + shopDayOffset shopsThisWeek shopInWeek)).1
              (weekStartDate + shopDayOffset shopsThisWeek shopInWeek)
              (tentativeAmount weeklyAmount st.entries weekStartDate
                shopsThisWeek shopInWeek) with
            | some best =>
              max (tentativeAmount weeklyAmount st.entries weekStartDate
                shopsThisWeek shopInWeek) (heapGet st.coupons best).minSpend
            | none =>
              tentativeAmount weeklyAmount st.entries weekStartDate
                shopsThisWeek shopInWeek)
          (totalBudget - st.totalSpend))
        (totalBudget - st.totalSpend)) ∧
      e.savings = (match bestRedemption st.coupons
          (sweepExpired st.coupons st.activeCoupons
            (weekStartDate + shopDayOffset shopsThisWeek shopInWeek)).1
          (weekStartDate + shopDayOffset shopsThisWeek shopInWeek)
          (tentativeAmount weeklyAmount st.entries weekStartDate shopsThisWeek
            shopInWeek) with
        | some best => (heapGet st.coupons best).value
        | none => 0) := by
  exact ⟨_, rfl, rfl, rfl, rfl, rfl⟩

/-- The coupon heap after a shop: the redemption update, plus possibly one
appended freshly earned coupon. -/
theorem processShop_coupons (totalBudget : ℚ) (weekStartDate : ℤ)
    (weeklyAmount : ℚ) (shopsThisWeek shopInWeek : ℕ) (st : PlanState) :
    ∃ tailC : List Coupon,
      (processShop totalBudget weekStartDate weeklyAmount shopsThisWeek
          shopInWeek st).coupons =
        (match bestRedemption st.coupons
            (sweepExpired st.coupons st.activeCoupons
              (weekStartDate + shopDayOffset shopsThisWeek shopInWeek)).1
            (weekStartDate + shopDayOffset shopsThisWeek shopInWeek)
            (tentativeAmount weeklyAmount st.entries weekStartDate
              shopsThisWeek shopInWeek) with
          | some best =>
            setUsed st.coupons best
              (weekStartDate + shopDayOffset shopsThisWeek shopInWeek)
          | none => st.coupons) ++ tailC ∧
      ∀ c ∈ tailC, c.used = false ∧
        ((c.value = 5 ∧ c.minSpend = 25) ∨ (c.value = 10 ∧ c.minSpend = 50)) := by
  simp only [processShop]
  split
  · rename_i c hc
    refine ⟨[c], rfl, ?_⟩
    intro c' hc'
    rw [List.mem_singleton] at hc'
    subst hc'
    unfold getCouponEarned at hc
    split_ifs at hc <;> injection hc with hc <;> rw [← hc] <;>
      simp [createCoupon, COUPON_RULES]
  · exact ⟨[], by simp, by simp⟩

/-- The per-event redemption contract (see `claim_C5_greedy_redemption`):
the shop emits exactly one entry; coupon used-flags never fall, and change at
most at the single redeemed index, which was an unused, date-valid active
coupon whose minimum the tentative spend met and which beats every date-valid
active coupon on value, with ties broken towards earlier expiry. -/
def RedemptionStep (totalBudget : ℚ) (weekStartDate : ℤ) (weeklyAmount : ℚ)
    (shopsThisWeek shopInWeek : ℕ) (st : PlanState) : Prop :=
  ∃ e,
    (processShop totalBudget weekStartDate weeklyAmount shopsThisWeek
        shopInWeek st).entries = st.entries ++ [e] ∧
    (∀ j, j < st.coupons.length → (heapGet st.coupons j).used = true →
      (heapGet (processShop totalBudget weekStartDate weeklyAmount
          shopsThisWeek shopInWeek st).coupons j).used = true) ∧
    (e.couponUsed = none → ∀ j, j < st.coupons.length →
      (heapGet (processShop totalBudget weekStartDate weeklyAmount
          shopsThisWeek shopInWeek st).coupons j).used =
        (heapGet st.coupons j).used) ∧
    (∀ i, e.couponUsed = some i →
      i ∈ st.activeCoupons ∧
      (heapGet st.coupons i).used = false ∧
      weekStartDate + shopDayOffset shopsThisWeek shopInWeek ≥
        (heapGet st.coupons i).validFrom ∧
      weekStartDate + shopDayOffset shopsThisWeek shopInWeek ≤
        (heapGet st.coupons i).validUntil ∧
      (heapGet st.coupons i).minSpend ≤
        tentativeAmount weeklyAmount st.entries weekStartDate shopsThisWeek
          shopInWeek ∧
      (heapGet (processShop totalBudget weekStartDate weeklyAmount
          shopsThisWeek shopInWeek st).coupons i).used = true ∧
      (∀ j, j < st.coupons.length → j ≠ i →
        (heapGet (processShop totalBudget weekStartDate weeklyAmount
            shopsThisWeek shopInWeek st).coupons j).used =
          (heapGet st.coupons j).used) ∧
      (∀ j ∈ (sweepExpired st.coupons st.activeCoupons
          (weekStartDate + shopDayOffset shopsThisWeek shopInWeek)).1,
        isDateUsable st.coupons
            (weekStartDate + shopDayOffset shopsThisWeek shopInWeek) j =
          true →
        (heapGet st.coupons j).value ≤ (heapGet st.coupons i).value ∧
          ((heapGet st.coupons j).value = (heapGet st.coupons i).value →
            (heapGet st.coupons i).validUntil ≤
              (heapGet st.coupons j).validUntil)))

/-- C5: at every purchase event at most one coupon is redeemed — exactly one
entry is emitted, and the used-flags of the pre-existing coupons change at
most at the one redeemed index, from `false` to `true` (never back, so a flag
transitions at most once over any run of shops); the redeemed coupon is an
unused, date-valid active coupon whose minimum spend the event's tentative
spend meets, and among all date-valid unused active coupons (a superset of
those additionally meeting their minimum) it has maximal value, with ties
broken towards the earliest expiry. -/
theorem claim_C5_greedy_redemption (totalBudget : ℚ) (weekStartDate : ℤ)
    (weeklyAmount : ℚ) (shopsThisWeek shopInWeek : ℕ) (st : PlanState)
    (hbound : ∀ i ∈ st.activeCoupons, i < st.coupons.length) :
    RedemptionStep totalBudget weekStartDate weeklyAmount shopsThisWeek
      shopInWeek st := by
  obtain ⟨e, hent, hused, hdate, hamt, hsav⟩ :=
    processShop_entry totalBudget weekStartDate weeklyAmount shopsThisWeek
      shopInWeek st
  obtain ⟨tailC, hcoup, htailC⟩ :=
    processShop_coupons totalBudget weekStartDate weeklyAmount shopsThisWeek
      shopInWeek st
  refine ⟨e, hent, ?_, ?_, ?_⟩
  · -- flags only rise
    intro j hj hTrue
    rw [hcoup]
    rcases bestRedemption st.coupons
        (sweepExpired st.coupons st.activeCoupons
          (weekStartDate + shopDayOffset shopsThisWeek shopInWeek)).1
        (weekStartDate + shopDayOffset shopsThisWeek shopInWeek)
        (tentativeAmount weeklyAmount st.entries weekStartDate shopsThisWeek
          shopInWeek) with _ | best
    · dsimp only
      rw [heapGet_append hj]
      exact hTrue
    · dsimp only
      rw [heapGet_append (by rw [setUsed_length]; exact hj)]
      by_cases hjb : j = best
      · subst hjb
        rw [heapGet_setUsed_self _ hj]
      · rw [heapGet_setUsed_ne _ (Ne.symm hjb)]
        exact hTrue
  · -- no redemption: flags unchanged
    intro hnone j hj
    rw [hused] at hnone
    rw [hcoup, hnone]
    dsimp only
    rw [heapGet_append hj]
  · -- redemption at i
    intro i hi
    rw [hused] at hi
    obtain ⟨hact1, husable, hmin, hopt⟩ :=
      bestRedemption_spec st.coupons
        (sweepExpired st.coupons st.activeCoupons
          (weekStartDate + shopDayOffset shopsThisWeek shopInWeek)).1
        (weekStartDate + shopDayOffset shopsThisWeek shopInWeek)
        (tentativeAmount weeklyAmount st.entries weekStartDate shopsThisWeek
          shopInWeek) i hi
    have hiact : i ∈ st.activeCoupons :=
      (sweepExpired_fst_sublist st.coupons st.activeCoupons
        (weekStartDate + shopDayOffset shopsThisWeek shopInWeek)).subset hact1
    have hilt : i < st.coupons.length := hbound i hiact
    have husable' := husable
    simp only [isDateUsable, Bool.and_eq_true, Bool.not_eq_true',
      decide_eq_true_eq] at husable'
    obtain ⟨⟨hunused, hfrom⟩, huntil⟩ := husable'
    rw [hcoup, hi]
    dsimp only
    refine ⟨hiact, hunused, hfrom, huntil, hmin, ?_, ?_, ?_⟩
    · rw [heapGet_append (by rw [setUsed_length]; exact hilt),
        heapGet_setUsed_self _ hilt]
    · intro j hj hji
      rw [heapGet_append (by rw [setUsed_length]; exact hj),
        heapGet_setUsed_ne _ (Ne.symm hji)]
    · intro j hj hju
      exact couponSortLe_dest st.coupons i j (hopt j hj hju)

/-- A coupon read inside the heap's bounds is one of the heap's coupons. -/
theorem heapGet_mem {cs : List Coupon} {i : ℕ} (h : i < cs.length) :
    heapGet cs i ∈ cs := by
  unfold heapGet
  rw [List.getD_eq_getElem?_getD, List.getElem?_eq_getElem h]
  exact List.getElem_mem _

/-- Every coupon `getCouponEarned` produces is fresh and of one of the two
tiers. -/
theorem getCouponEarned_shape (sp : ℚ) (d : ℤ) (c : Coupon)
    (h : getCouponEarned sp d = some c) :
    c.used = false ∧
      ((c.value = 5 ∧ c.minSpend = 25) ∨ (c.value = 10 ∧ c.minSpend = 50)) := by
  unfold getCouponEarned at h
  split_ifs at h <;> injection h with h <;> rw [← h] <;>
    simp [createCoupon, COUPON_RULES]

/-- Full case description of one shop: the emitted entry, the heap update,
the active-list update, and every counter, in terms of the redemption
decision and with the freshly earned coupon isolated as `tailC`/`tailA`. -/
theorem processShop_cases (tb : ℚ) (ws : ℤ) (wa : ℚ) (s k : ℕ)
    (st : PlanState) :
    ∃ (e : ShoppingEntry) (tailC : List Coupon) (tailA : List ℕ),
      (processShop tb ws wa s k st).entries = st.entries ++ [e] ∧
      e.date = ws + shopDayOffset s k ∧
      e.couponUsed = bestRedemption st.coupons
        (sweepExpired st.coupons st.activeCoupons (ws + shopDayOffset s k)).1
        (ws + shopDayOffset s k) (tentativeAmount wa st.entries ws s k) ∧
      (processShop tb ws wa s k st).totalSpend = st.totalSpend +
        min (optimizeSpendForCoupon
          (match e.couponUsed with
           | some best => max (tentativeAmount wa st.entries ws s k)
               (heapGet st.coupons best).minSpend
           | none => tentativeAmount wa st.entries ws s k)
          (tb - st.totalSpend)) (tb - st.totalSpend) ∧
      e.plannedAmount = round2 (min (optimizeSpendForCoupon
          (match e.couponUsed with
           | some best => max (tentativeAmount wa st.entries ws s k)
               (heapGet st.coupons best).minSpend
           | none => tentativeAmount wa st.entries ws s k)
          (tb - st.totalSpend)) (tb - st.totalSpend)) ∧
      e.savings = (match e.couponUsed with
        | some best => (heapGet st.coupons best).value
        | none => 0) ∧
      (processShop tb ws wa s k st).totalSavings =
        st.totalSavings + e.savings ∧
      (processShop tb ws wa s k st).couponsUsed = st.couponsUsed +
        (match e.couponUsed with | some _ => 1 | none => 0) ∧
      (processShop tb ws wa s k st).coupons = (match e.couponUsed with
        | some best => setUsed st.coupons best (ws + shopDayOffset s k)
        | none => st.coupons) ++ tailC ∧
      (processShop tb ws wa s k st).couponsEarned =
        st.couponsEarned + tailC.length ∧
      (∀ c ∈ tailC, c.used = false ∧
        ((c.value = 5 ∧ c.minSpend = 25) ∨ (c.value = 10 ∧ c.minSpend = 50))) ∧
      (processShop tb ws wa s k st).activeCoupons =
        (sweepExpired st.coupons st.activeCoupons
          (ws + shopDayOffset s k)).1 ++ tailA ∧
      (tailA = [] ∨ tailA = [st.coupons.length]) ∧
      tailA.length = tailC.length ∧
      (∀ i, e.couponEarned = some i →
        i < (processShop tb ws wa s k st).coupons.length ∧
          st.coupons.length ≤ i) := by
  simp only [processShop]
  rcases hR : bestRedemption st.coupons
      (sweepExpired st.coupons st.activeCoupons (ws + shopDayOffset s k)).1
      (ws + shopDayOffset s k) (tentativeAmount wa st.entries ws s k)
    with _ | best
  · dsimp only
    rcases hE : getCouponEarned
        (min (optimizeSpendForCoupon (tentativeAmount wa st.entries ws s k)
          (tb - st.totalSpend)) (tb - st.totalSpend))
        (ws + shopDayOffset s k) with _ | c
    · dsimp only
      refine ⟨_, [], [], rfl, rfl, rfl, rfl, rfl, rfl, rfl, by simp,
        by simp, by simp, by simp, by simp, by simp, by simp, ?_⟩
      intro i hi
      cases hi
    · dsimp only
      refine ⟨_, [c], [st.coupons.length], rfl, rfl, rfl, rfl, rfl, rfl, rfl,
        by simp, rfl, by simp, ?_, rfl, by simp, by simp, ?_⟩
      · intro c' hc'
        rw [List.mem_singleton] at hc'
        subst hc'
        exact getCouponEarned_shape _ _ _ hE
      · intro i hi
        injection hi with hi
        subst hi
        simp
  · dsimp only
    rcases hE : getCouponEarned
        (min (optimizeSpendForCoupon
            (max (tentativeAmount wa st.entries ws s k)
              (heapGet st.coupons best).minSpend)
            (tb - st.totalSpend)) (tb - st.totalSpend))
        (ws + shopDayOffset s k) with _ | c
    · dsimp only
      refine ⟨_, [], [], rfl, rfl, rfl, rfl, rfl, rfl, rfl, by simp,
        by simp, by simp, by simp, by simp, by simp, by simp, ?_⟩
      intro i hi
      cases hi
    · dsimp only
      refine ⟨_, [c], [(setUsed st.coupons best
          (ws + shopDayOffset s k)).length], rfl, rfl, rfl, rfl, rfl, rfl,
        rfl, by simp, rfl, by simp, ?_, rfl, ?_, by simp, ?_⟩
      · intro c' hc'
        rw [List.mem_singleton] at hc'
        subst hc'
        exact getCouponEarned_shape _ _ _ hE
      · rw [setUsed_length]
        exact Or.inr rfl
      · intro i hi
        injection hi with hi
        subst hi
        simp [setUsed_length]

/-- The count of used coupons rises by exactly one when an unused in-range
coupon is marked used. -/
theorem length_filter_setUsed (d : ℤ) :
    ∀ (cs : List Coupon) (i : ℕ), i < cs.length →
      (heapGet cs i).used = false →
      ((setUsed cs i d).filter (fun c => c.used)).length =
        ((cs.filter (fun c => c.used)).length) + 1 := by
  intro cs
  induction cs with
  | nil => intro i h; simp at h
  | cons c cs ih =>
    intro i hi hun
    cases i with
    | zero =>
      have hc : heapGet (c :: cs) 0 = c := rfl
      rw [hc] at hun
      have hset : setUsed (c :: cs) 0 d =
          { c with used := true, usedDate := some d } :: cs := rfl
      rw [hset, List.filter_cons, List.filter_cons]
      simp [hun]
    | succ j =>
      have hj : j < cs.length := by simpa using hi
      have hun' : (heapGet cs j).used = false := hun
      have hset : setUsed (c :: cs) (j + 1) d = c :: setUsed cs j d := rfl
      rw [hset, List.filter_cons, List.filter_cons]
      by_cases hc : c.used
      · simp only [hc, if_pos]
        simp only [List.length_cons]
        rw [ih j hj hun']
      · simp only [hc]
        simp [ih j hj hun']

/-- The conservation invariant of a planning run (claim C2): the earned
counter tracks the heap size, the used counter tracks the used flags, the
savings accumulator is the (natural-number) sum of the entries' savings, and
the spend accumulator is within half a cent per entry of the sum of the
entries' rounded amounts; active references stay in range and all coupons
are of the two tiers. -/
def ConservationInv (st : PlanState) : Prop :=
  st.couponsEarned = st.coupons.length ∧
  st.couponsUsed = (st.coupons.filter (fun c => c.used)).length ∧
  st.totalSavings = (st.entries.map (fun e => e.savings)).sum ∧
  (∃ n : ℕ, st.totalSavings = (n : ℚ)) ∧
  |st.totalSpend - (st.entries.map (fun e => e.plannedAmount)).sum| ≤
    (st.entries.length : ℚ) * (1/200) ∧
  (∀ i ∈ st.activeCoupons, i < st.coupons.length) ∧
  (∀ c ∈ st.coupons,
    (c.value = 5 ∧ c.minSpend = 25) ∨ (c.value = 10 ∧ c.minSpend = 50))

theorem spend_bound_step {T S A : ℚ} {m : ℕ}
    (hB : |T - S| ≤ (m : ℚ) * (1/200)) :
    |T + A - (S + round2 A)| ≤ ((m : ℚ) + 1) * (1/200) := by
  have hr := round2_sub_le A
  have habs : |A - round2 A| ≤ 1/200 :=
    abs_le.mpr ⟨by linarith [hr.2], by linarith [hr.1]⟩
  have heq : T + A - (S + round2 A) = (T - S) + (A - round2 A) := by ring
  rw [heq]
  refine le_trans (abs_add _ _) ?_
  linarith

theorem conservation_step (tb : ℚ) (ws : ℤ) (wa : ℚ) (s k : ℕ)
    (st : PlanState) (h : ConservationInv st) :
    ConservationInv (processShop tb ws wa s k st) := by
  obtain ⟨hCE, hCU, hTS, ⟨n, hN⟩, hB, hA, hWF⟩ := h
  obtain ⟨e, tailC, tailA, hent, hdate, hused, hspend, hamt, hsav, htsav,
    hcu, hcoup, hce, htailC, hact, htailA, hlenA, hearn⟩ :=
    processShop_cases tb ws wa s k st
  have hswept : ∀ i ∈ (sweepExpired st.coupons st.activeCoupons
      (ws + shopDayOffset s k)).1, i < st.coupons.length :=
    fun i hi => hA i ((sweepExpired_fst_sublist _ _ _).subset hi)
  have htailCnil : tailC.filter (fun c => c.used) = [] := by
    refine List.filter_eq_nil.mpr fun c hc => ?_
    rw [(htailC c hc).1]
    simp
  have hlen' : (processShop tb ws wa s k st).coupons.length =
      st.coupons.length + tailC.length := by
    rw [hcoup]
    rcases e.couponUsed with _ | b
    · simp
    · simp [setUsed_length]
  refine ⟨?_, ?_, ?_, ?_, ?_, ?_, ?_⟩
  · rw [hce, hCE, hlen']
  · rw [hcu, hcoup]
    rcases hu : e.couponUsed with _ | b
    · dsimp only
      rw [List.filter_append, htailCnil, List.append_nil, hCU, add_zero]
    · dsimp only
      rw [hu] at hused
      obtain ⟨hb1, hbusable, -, -⟩ :=
        bestRedemption_spec _ _ _ _ b hused.symm
      have hblt : b < st.coupons.length := hswept b hb1
      have hbunused : (heapGet st.coupons b).used = false := by
        simp only [isDateUsable, Bool.and_eq_true, Bool.not_eq_true',
          decide_eq_true_eq] at hbusable
        exact hbusable.1.1
      rw [List.filter_append, htailCnil, List.append_nil,
        length_filter_setUsed _ _ _ hblt hbunused, hCU]
  · rw [htsav, hent, List.map_append, List.sum_append, hTS]
    simp
  · rcases hu : e.couponUsed with _ | b
    · rw [hu] at hsav
      dsimp only at hsav
      exact ⟨n, by rw [htsav, hsav, hN, add_zero]⟩
    · rw [hu] at hsav hused
      dsimp only at hsav
      obtain ⟨hb1, -, -, -⟩ := bestRedemption_spec _ _ _ _ b hused.symm
      have hblt : b < st.coupons.length := hswept b hb1
      rcases hWF _ (heapGet_mem hblt) with ⟨hv, -⟩ | ⟨hv, -⟩
      · exact ⟨n + 5, by rw [htsav, hsav, hv, hN]; push_cast; ring⟩
      · exact ⟨n + 10, by rw [htsav, hsav, hv, hN]; push_cast; ring⟩
  · rw [hspend, hent]
    simp only [List.map_append, List.sum_append, List.map_cons, List.sum_cons,
      List.map_nil, List.sum_nil, List.length_append, List.length_cons,
      List.length_nil, add_zero]
    rw [hamt]
    push_cast
    exact spend_bound_step hB
  · intro i hi
    rw [hact, List.mem_append] at hi
    rcases hi with hi | hi
    · exact lt_of_lt_of_le (hswept i hi) (by rw [hlen']; exact Nat.le_add_right _ _)
    · rcases htailA with rfl | rfl
      · cases hi
      · rw [List.mem_singleton] at hi
        subst hi
        rw [hlen']
        have : tailC.length = 1 := by rw [← hlenA]; rfl
        rw [this]
        exact Nat.lt_succ_self _
  · intro c hc
    rw [hcoup, List.mem_append] at hc
    rcases hc with hc | hc
    · rcases hu : e.couponUsed with _ | b
      · rw [hu] at hc
        dsimp only at hc
        exact hWF c hc
      · rw [hu] at hc hused
        dsimp only at hc
        obtain ⟨hb1, -, -, -⟩ := bestRedemption_spec _ _ _ _ b hused.symm
        have hblt : b < st.coupons.length := hswept b hb1
        rcases List.mem_or_eq_of_mem_set hc with hc | rfl
        · exact hWF c hc
        · rcases hWF _ (heapGet_mem hblt) with ⟨h1, h2⟩ | ⟨h1, h2⟩
          · exact Or.inl ⟨h1, h2⟩
          · exact Or.inr ⟨h1, h2⟩
    · exact (htailC c hc).2

/-! ## Generic preservation through the loops -/

theorem runWeekShops_preserves {P : PlanState → Prop}
    (hstep : ∀ tb ws wa s k st, P st → P (processShop tb ws wa s k st))
    (tb : ℚ) (ws : ℤ) (wa : ℚ) (s : ℕ) (st : PlanState) (h : P st) :
    P (runWeekShops tb ws wa s st).1 := by
  unfold runWeekShops
  suffices hgen : ∀ (l : List ℕ) (acc : PlanState × Bool), P acc.1 →
      P ((l.foldl (fun acc shopInWeek =>
        if acc.2 then acc
        else
          let st1 := processShop tb ws wa s shopInWeek acc.1
          (st1, decide (st1.totalSpend ≥ tb))) acc).1) from
    hgen (List.range s) (st, false) h
  intro l
  induction l with
  | nil => intro acc hacc; exact hacc
  | cons x xs ih =>
    intro acc hacc
    simp only [List.foldl_cons]
    by_cases hfl : acc.2
    · rw [if_pos hfl]
      exact ih acc hacc
    · rw [if_neg hfl]
      exact ih _ (hstep tb ws wa s x acc.1 hacc)

theorem runWeeks_preserves {P : PlanState → Prop}
    (hstep : ∀ tb ws wa s k st, P st → P (processShop tb ws wa s k st))
    (b tb : ℚ) (d : ℤ) :
    ∀ (wl w : ℕ) (st : PlanState), P st → P (runWeeks b tb d w wl st) := by
  intro wl
  induction wl with
  | zero => intro w st h; exact h
  | succ wl ih =>
    intro w st h
    rw [runWeeks]
    by_cases hg : min b (tb - st.totalSpend) ≤ 0
    · rw [if_pos hg]
      exact h
    · rw [if_neg hg]
      by_cases hfl : (runWeekShops tb (d + 7 * (w : ℤ))
          (min b (tb - st.totalSpend)) (determineOptimalShopsPerWeek
            (min b (tb - st.totalSpend))) st).2
      · rw [if_pos hfl]
        exact runWeekShops_preserves hstep _ _ _ _ _ h
      · rw [if_neg hfl]
        exact ih _ _ (runWeekShops_preserves hstep _ _ _ _ _ h)

theorem conservation_init : ConservationInv initState := by
  refine ⟨rfl, rfl, rfl, ⟨0, by norm_num [initState]⟩, ?_, ?_, ?_⟩
  · simp [initState]
  · intro i hi
    simp [initState] at hi
  · intro c hc
    simp [initState] at hc

/-! ## Projections of the final result -/

theorem optimizeShoppingPlan_entries (b : ℚ) (d : ℤ) :
    (optimizeShoppingPlan b d).entries =
      (runWeeks b (b * 10) d 0 10 initState).entries := rfl

theorem optimizeShoppingPlan_coupons (b : ℚ) (d : ℤ) :
    (optimizeShoppingPlan b d).coupons =
      (runWeeks b (b * 10) d 0 10 initState).coupons := rfl

theorem optimizeShoppingPlan_totalSpend (b : ℚ) (d : ℤ) :
    (optimizeShoppingPlan b d).totalSpend =
      round2 (runWeeks b (b * 10) d 0 10 initState).totalSpend := rfl

theorem optimizeShoppingPlan_totalSavings (b : ℚ) (d : ℤ) :
    (optimizeShoppingPlan b d).totalSavings =
      round2 (runWeeks b (b * 10) d 0 10 initState).totalSavings := rfl

theorem optimizeShoppingPlan_couponsEarned (b : ℚ) (d : ℤ) :
    (optimizeShoppingPlan b d).couponsEarned =
      (runWeeks b (b * 10) d 0 10 initState).couponsEarned := rfl

theorem optimizeShoppingPlan_couponsUsed (b : ℚ) (d : ℤ) :
    (optimizeShoppingPlan b d).couponsUsed =
      (runWeeks b (b * 10) d 0 10 initState).couponsUsed := rfl

/-- C2, counterexample to the ±0.01 bound: at weekly budget 25.982 the
rounded accumulated `totalSpend` differs from the sum of the entries'
(individually rounded) planned amounts by 0.02. -/
theorem claim_C2_conservation_counterexample :
    ¬ (|(optimizeShoppingPlan (12991/500) 0).totalSpend -
        ((optimizeShoppingPlan (12991/500) 0).entries.map
          (fun e => e.plannedAmount)).sum| ≤ 1/100) := by
  decide

/-- C2 (amended): `totalSavings`, `couponsUsed` and `couponsEarned` satisfy
the claimed conservation laws exactly, but `totalSpend` — the rounding of
the exact accumulated spend — matches the sum of the entries' individually
rounded planned amounts only to within half a cent per entry plus half a
cent (±0.105 for a full 20-entry horizon), not ±0.01. -/
theorem claim_C2_conservation (b : ℚ) (d : ℤ) (hb : 0 < b) :
    (optimizeShoppingPlan b d).totalSavings =
      ((optimizeShoppingPlan b d).entries.map (fun e => e.savings)).sum ∧
    (optimizeShoppingPlan b d).couponsUsed =
      ((optimizeShoppingPlan b d).coupons.filter (fun c => c.used)).length ∧
    (optimizeShoppingPlan b d).couponsEarned =
      (optimizeShoppingPlan b d).coupons.length ∧
    |(optimizeShoppingPlan b d).totalSpend -
        ((optimizeShoppingPlan b d).entries.map
          (fun e => e.plannedAmount)).sum| ≤
      (((optimizeShoppingPlan b d).entries.length : ℚ) + 1) * (1/200) := by
  clear hb
  obtain ⟨hCE, hCU, hTS, ⟨n, hN⟩, hB, -, -⟩ :=
    runWeeks_preserves conservation_step b (b * 10) d 10 0 initState
      conservation_init
  have hround : round2 (runWeeks b (b * 10) d 0 10 initState).totalSavings =
      (runWeeks b (b * 10) d 0 10 initState).totalSavings := by
    rw [hN]
    have hcast : ((n : ℚ)) = (((n : ℤ) : ℤ) : ℚ) := by push_cast; ring
    rw [hcast, round2_intCast]
  refine ⟨?_, ?_, ?_, ?_⟩
  · rw [optimizeShoppingPlan_totalSavings, optimizeShoppingPlan_entries,
      hround, hTS]
  · rw [optimizeShoppingPlan_couponsUsed, optimizeShoppingPlan_coupons, hCU]
  · rw [optimizeShoppingPlan_couponsEarned, optimizeShoppingPlan_coupons, hCE]
  · rw [optimizeShoppingPlan_totalSpend, optimizeShoppingPlan_entries]
    have hr := round2_sub_le (runWeeks b (b * 10) d 0 10 initState).totalSpend
    have habs : |round2 (runWeeks b (b * 10) d 0 10 initState).totalSpend -
        (runWeeks b (b * 10) d 0 10 initState).totalSpend| ≤ 1/200 :=
      abs_le.mpr ⟨by linarith [hr.2], by linarith [hr.1]⟩
    calc |round2 (runWeeks b (b * 10) d 0 10 initState).totalSpend -
            ((runWeeks b (b * 10) d 0 10 initState).entries.map
              (fun e => e.plannedAmount)).sum|
        = |(round2 (runWeeks b (b * 10) d 0 10 initState).totalSpend -
              (runWeeks b (b * 10) d 0 10 initState).totalSpend) +
            ((runWeeks b (b * 10) d 0 10 initState).totalSpend -
              ((runWeeks b (b * 10) d 0 10 initState).entries.map
                (fun e => e.plannedAmount)).sum)| := by ring_nf
      _ ≤ |round2 (runWeeks b (b * 10) d 0 10 initState).totalSpend -
              (runWeeks b (b * 10) d 0 10 initState).totalSpend| +
            |(runWeeks b (b * 10) d 0 10 initState).totalSpend -
              ((runWeeks b (b * 10) d 0 10 initState).entries.map
                (fun e => e.plannedAmount)).sum| := abs_add _ _
      _ ≤ (((runWeeks b (b * 10) d 0 10 initState).entries.length : ℚ) + 1) *
            (1/200) := by linarith

theorem claim_C2_conservation_witness :
    (0 : ℚ) < 30 ∧
      ((optimizeShoppingPlan 30 0).totalSavings =
        ((optimizeShoppingPlan 30 0).entries.map (fun e => e.savings)).sum ∧
      (optimizeShoppingPlan 30 0).couponsUsed =
        ((optimizeShoppingPlan 30 0).coupons.filter (fun c => c.used)).length ∧
      (optimizeShoppingPlan 30 0).couponsEarned =
        (optimizeShoppingPlan 30 0).coupons.length ∧
      |(optimizeShoppingPlan 30 0).totalSpend -
          ((optimizeShoppingPlan 30 0).entries.map
            (fun e => e.plannedAmount)).sum| ≤
        (((optimizeShoppingPlan 30 0).entries.length : ℚ) + 1) * (1/200)) :=
  ⟨by norm_num, claim_C2_conservation 30 0 (by norm_num)⟩

/-! ## Claim C1: a locked-in redemption is never underfunded -/

/-- The threshold nudge never drops a spend below a met tier minimum. -/
theorem optimizeSpendForCoupon_lower {m p rB : ℚ} (hm : m = 25 ∨ m = 50)
    (hp : m ≤ p) : m ≤ optimizeSpendForCoupon p rB := by
  unfold optimizeSpendForCoupon
  split_ifs with h1 h2 h3 h4
  · rcases hm with rfl | rfl <;> norm_num
  · exact le_max_of_le_right hp
  · rcases hm with rfl | rfl <;> linarith [h3.2.1]
  · rcases hm with rfl | rfl
    · exact le_min (by norm_num) hp
    · linarith [h4.2]
  · exact hp

/-- Nudge, clamp and rounding keep the spend at or above a met tier minimum
whenever the remaining budget itself still covers that minimum. -/
theorem redeemMin_round2 {m p rB : ℚ} (hm : m = 25 ∨ m = 50) (hp : m ≤ p)
    (hrB : m ≤ rB) :
    m ≤ round2 (min (optimizeSpendForCoupon p rB) rB) := by
  have h1 : m ≤ min (optimizeSpendForCoupon p rB) rB :=
    le_min (optimizeSpendForCoupon_lower hm hp) hrB
  have h2 : round2 m = m := by rcases hm with rfl | rfl <;> decide
  calc m = round2 m := h2.symm
    _ ≤ _ := round2_mono h1

theorem heapGet_setUsed_minSpend (cs : List Coupon) (b : ℕ) (d : ℤ) (j : ℕ)
    (hj : j < cs.length) :
    (heapGet (setUsed cs b d) j).minSpend = (heapGet cs j).minSpend := by
  by_cases hbj : b = j
  · subst hbj
    rw [heapGet_setUsed_self d hj]
  · rw [heapGet_setUsed_ne d hbj]

/-- Entries dated before the week start do not pass the week filter. -/
theorem weekFilter_nil (entries : List ShoppingEntry) (ws : ℤ)
    (hd : ∀ e ∈ entries, e.date < ws) :
    entries.filter (fun e =>
      decide (e.date ≥ ws) && decide (e.date < ws + 7)) = [] := by
  refine List.filter_eq_nil.mpr fun e he => ?_
  have := hd e he
  simp only [Bool.and_eq_true, decide_eq_true_eq, not_and, ge_iff_le]
  intro hge
  linarith

theorem weekSpentSoFar_nil (entries : List ShoppingEntry) (ws : ℤ)
    (hd : ∀ e ∈ entries, e.date < ws) :
    weekSpentSoFar entries ws = 0 := by
  unfold weekSpentSoFar
  rw [weekFilter_nil entries ws hd]
  rfl

theorem weekSpentSoFar_append (entries : List ShoppingEntry)
    (e0 : ShoppingEntry) (ws : ℤ) (hd : ∀ e ∈ entries, e.date < ws)
    (h0 : e0.date = ws) :
    weekSpentSoFar (entries ++ [e0]) ws = e0.plannedAmount := by
  unfold weekSpentSoFar
  rw [List.filter_append, weekFilter_nil entries ws hd]
  have h2 : ([e0].filter (fun e =>
      decide (e.date ≥ ws) && decide (e.date < ws + 7))) = [e0] := by
    simp [h0]
  rw [h2]
  simp

/-- Shop offsets stay inside the 7-day week for the reachable shapes. -/
theorem shopDayOffset_lt (s k : ℕ) (hk : k < s) (hs : s ≤ 2) :
    shopDayOffset s k < 7 := by
  unfold shopDayOffset
  by_cases h0 : k = 0
  · rw [if_pos h0]
    norm_num
  · rw [if_neg h0]
    interval_cases s <;> interval_cases k <;> simp_all <;> norm_num

/-- `determineOptimalShopsPerWeek` returns 2 (only above 90) or 1. -/
theorem shops_cases (w : ℚ) :
    (determineOptimalShopsPerWeek w = 2 ∧ 90 ≤ w) ∨
      determineOptimalShopsPerWeek w = 1 := by
  unfold determineOptimalShopsPerWeek
  split_ifs with h1 h2 h3 <;>
    first
      | (left; exact ⟨rfl, by linarith⟩)
      | (right; rfl)

/-- The C1 invariant at week start `ws`: all entries are dated before `ws`,
references are in range, all coupons are of the two tiers, and every entry
that redeemed a coupon has a recorded amount of at least its minimum. -/
def C1Inv (ws : ℤ) (st : PlanState) : Prop :=
  (∀ e ∈ st.entries, e.date < ws) ∧
  (∀ i ∈ st.activeCoupons, i < st.coupons.length) ∧
  (∀ c ∈ st.coupons,
    (c.value = 5 ∧ c.minSpend = 25) ∨ (c.value = 10 ∧ c.minSpend = 50)) ∧
  (∀ e ∈ st.entries, ∀ i, e.couponUsed = some i →
    i < st.coupons.length ∧
      (heapGet st.coupons i).minSpend ≤ e.plannedAmount)

/-- One shop preserves the C1 data, provided the remaining budget still
covers the minimum of whichever coupon the shop redeems. -/
theorem C1_shop (tb : ℚ) (ws : ℤ) (wa : ℚ) (s k : ℕ) (st : PlanState)
    (hoff : shopDayOffset s k < 7)
    (hd7 : ∀ e ∈ st.entries, e.date < ws + 7)
    (hA : ∀ i ∈ st.activeCoupons, i < st.coupons.length)
    (hWF : ∀ c ∈ st.coupons,
      (c.value = 5 ∧ c.minSpend = 25) ∨ (c.value = 10 ∧ c.minSpend = 50))
    (hgoal : ∀ e ∈ st.entries, ∀ i, e.couponUsed = some i →
      i < st.coupons.length ∧
        (heapGet st.coupons i).minSpend ≤ e.plannedAmount)
    (hmrB : ∀ i, bestRedemption st.coupons
        (sweepExpired st.coupons st.activeCoupons
          (ws + shopDayOffset s k)).1 (ws + shopDayOffset s k)
        (tentativeAmount wa st.entries ws s k) = some i →
      (heapGet st.coupons i).minSpend ≤ tb - st.totalSpend) :
    (∀ e ∈ (processShop tb ws wa s k st).entries, e.date < ws + 7) ∧
    (∀ i ∈ (processShop tb ws wa s k st).activeCoupons,
      i < (processShop tb ws wa s k st).coupons.length) ∧
    (∀ c ∈ (processShop tb ws wa s k st).coupons,
      (c.value = 5 ∧ c.minSpend = 25) ∨ (c.value = 10 ∧ c.minSpend = 50)) ∧
    (∀ e ∈ (processShop tb ws wa s k st).entries, ∀ i,
      e.couponUsed = some i →
        i < (processShop tb ws wa s k st).coupons.length ∧
          (heapGet (processShop tb ws wa s k st).coupons i).minSpend ≤
            e.plannedAmount) := by
  obtain ⟨e, tailC, tailA, hent, hdate, hused, hspend, hamt, hsav, htsav,
    hcu, hcoup, hce, htailC, hact, htailA, hlenA, hearn⟩ :=
    processShop_cases tb ws wa s k st
  have hswept : ∀ i ∈ (sweepExpired st.coupons st.activeCoupons
      (ws + shopDayOffset s k)).1, i < st.coupons.length :=
    fun i hi => hA i ((sweepExpired_fst_sublist _ _ _).subset hi)
  have hlen' : (processShop tb ws wa s k st).coupons.length =
      st.coupons.length + tailC.length := by
    rw [hcoup]
    rcases e.couponUsed with _ | b
    · simp
    · simp [setUsed_length]
  have hlenle : st.coupons.length ≤ (processShop tb ws wa s k st).coupons.length := by
    rw [hlen']
    exact Nat.le_add_right _ _
  have hpres : ∀ j, j < st.coupons.length →
      (heapGet (processShop tb ws wa s k st).coupons j).minSpend =
        (heapGet st.coupons j).minSpend := by
    intro j hj
    rw [hcoup]
    rcases e.couponUsed with _ | b
    · dsimp only
      rw [heapGet_append hj]
    · dsimp only
      rw [heapGet_append (by rw [setUsed_length]; exact hj)]
      exact heapGet_setUsed_minSpend st.coupons b _ j hj
  refine ⟨?_, ?_, ?_, ?_⟩
  · intro e' he'
    rw [hent, List.mem_append] at he'
    rcases he' with he' | he'
    · exact hd7 e' he'
    · rw [List.mem_singleton] at he'
      subst he'
      rw [hdate]
      linarith
  · intro i hi
    rw [hact, List.mem_append] at hi
    rcases hi with hi | hi
    · exact lt_of_lt_of_le (hswept i hi) hlenle
    · rcases htailA with rfl | rfl
      · cases hi
      · rw [List.mem_singleton] at hi
        subst hi
        rw [hlen']
        have h1 : tailC.length = 1 := by rw [← hlenA]; rfl
        rw [h1]
        exact Nat.lt_succ_self _
  · intro c hc
    rw [hcoup, List.mem_append] at hc
    rcases hc with hc | hc
    · rcases hu : e.couponUsed with _ | b
      · rw [hu] at hc
        dsimp only at hc
        exact hWF c hc
      · rw [hu] at hc hused
        dsimp only at hc
        obtain ⟨hb1, -, -, -⟩ := bestRedemption_spec _ _ _ _ b hused.symm
        have hblt : b < st.coupons.length := hswept b hb1
        rcases List.mem_or_eq_of_mem_set hc with hc | rfl
        · exact hWF c hc
        · rcases hWF _ (heapGet_mem hblt) with ⟨h1, h2⟩ | ⟨h1, h2⟩
          · exact Or.inl ⟨h1, h2⟩
          · exact Or.inr ⟨h1, h2⟩
    · exact (htailC c hc).2
  · intro e' he' i hi
    rw [hent, List.mem_append] at he'
    rcases he' with he' | he'
    · obtain ⟨hilt, hile⟩ := hgoal e' he' i hi
      exact ⟨lt_of_lt_of_le hilt hlenle, by rw [hpres i hilt]; exact hile⟩
    · rw [List.mem_singleton] at he'
      subst he'
      rw [hused] at hi
      obtain ⟨hact1, husable, hminp0, -⟩ :=
        bestRedemption_spec _ _ _ _ i hi
      have hilt : i < st.coupons.length := hswept i hact1
      have hm : (heapGet st.coupons i).minSpend = 25 ∨
          (heapGet st.coupons i).minSpend = 50 := by
        rcases hWF _ (heapGet_mem hilt) with ⟨-, h2⟩ | ⟨-, h2⟩
        · exact Or.inl h2
        · exact Or.inr h2
      have hrB : (heapGet st.coupons i).minSpend ≤ tb - st.totalSpend :=
        hmrB i hi
      rw [hused, hi] at hamt
      dsimp only at hamt
      rw [max_eq_left hminp0] at hamt
      refine ⟨lt_of_lt_of_le hilt hlenle, ?_⟩
      rw [hpres i hilt, hamt]
      exact redeemMin_round2 hm hminp0 hrB

theorem runWeekShops_one (tb : ℚ) (ws : ℤ) (wa : ℚ) (st : PlanState) :
    (runWeekShops tb ws wa 1 st).1 = processShop tb ws wa 1 0 st := by
  unfold runWeekShops
  have h : List.range 1 = [0] := rfl
  rw [h]
  simp only [List.foldl_cons, List.foldl_nil]
  rfl

theorem runWeekShops_two (tb : ℚ) (ws : ℤ) (wa : ℚ) (st : PlanState) :
    (runWeekShops tb ws wa 2 st).1 =
      (if (processShop tb ws wa 2 0 st).totalSpend ≥ tb
       then processShop tb ws wa 2 0 st
       else processShop tb ws wa 2 1 (processShop tb ws wa 2 0 st)) := by
  unfold runWeekShops
  have h : List.range 2 = [0, 1] := rfl
  rw [h]
  simp only [List.foldl_cons, List.foldl_nil]
  by_cases hc : (processShop tb ws wa 2 0 st).totalSpend ≥ tb
  · rw [if_pos hc]
    simp [hc]
  · rw [if_neg hc]
    simp [hc]

/-- One whole week preserves the C1 invariant: for either shop count, the
remaining overall budget still covers the minimum of any coupon the shops
redeem, so `C1_shop` applies to each shop of the week. -/
theorem C1_week (b tb : ℚ) (ws : ℤ) (st : PlanState) (hinv : C1Inv ws st)
    (hwa : 0 < min b (tb - st.totalSpend)) :
    C1Inv (ws + 7)
      (runWeekShops tb ws (min b (tb - st.totalSpend))
        (determineOptimalShopsPerWeek (min b (tb - st.totalSpend))) st).1 := by
  obtain ⟨hd, hA, hWF, hgoal⟩ := hinv
  have hd7 : ∀ e ∈ st.entries, e.date < ws + 7 :=
    fun e he => by linarith [hd e he]
  set wa := min b (tb - st.totalSpend) with hwadef
  have hwaR : wa ≤ tb - st.totalSpend := min_le_right _ _
  have hspent0 : weekSpentSoFar st.entries ws = 0 :=
    weekSpentSoFar_nil _ _ hd
  rcases shops_cases wa with ⟨h2eq, h90⟩ | h1
  · -- two shops, wa ≥ 90
    rw [h2eq, runWeekShops_two]
    have hp0 : tentativeAmount wa st.entries ws 2 0 = wa / 2 := by
      unfold tentativeAmount
      rw [hspent0]
      norm_num
    have hshop0 :=
      C1_shop tb ws wa 2 0 st (by decide) hd7 hA hWF hgoal (by
        intro i hi
        obtain ⟨-, -, hminp, -⟩ := bestRedemption_spec _ _ _ _ i hi
        rw [hp0] at hminp
        linarith)
    obtain ⟨hd1, hA1, hWF1, hgoal1⟩ := hshop0
    obtain ⟨e0, tailC0, tailA0, hent0, hdate0, hused0, hspend0, hamt0, -, -,
      -, -, -, -, -, -, -, -⟩ := processShop_cases tb ws wa 2 0 st
    have hdate0' : e0.date = ws := by
      rw [hdate0]
      simp [shopDayOffset]
    have hcollapse : (match e0.couponUsed with
        | some best => max (tentativeAmount wa st.entries ws 2 0)
            (heapGet st.coupons best).minSpend
        | none => tentativeAmount wa st.entries ws 2 0) =
          tentativeAmount wa st.entries ws 2 0 := by
      rcases hu0 : e0.couponUsed with _ | b0
      · rfl
      · dsimp only
        rw [hu0] at hused0
        obtain ⟨-, -, hminp, -⟩ := bestRedemption_spec _ _ _ _ b0 hused0.symm
        exact max_eq_left hminp
    rw [hcollapse, hp0] at hspend0 hamt0
    by_cases h100 : wa < 100
    · have hopt : optimizeSpendForCoupon (wa / 2) (tb - st.totalSpend) = 50 := by
        unfold optimizeSpendForCoupon
        rw [if_pos ⟨by linarith, by linarith, by linarith⟩]
      have hmin50 : min (optimizeSpendForCoupon (wa / 2) (tb - st.totalSpend))
          (tb - st.totalSpend) = 50 := by
        rw [hopt]
        exact min_eq_left (by linarith)
      rw [hmin50] at hspend0 hamt0
      have hr0 : e0.plannedAmount = 50 := by
        rw [hamt0]
        decide
      by_cases hf : (processShop tb ws wa 2 0 st).totalSpend ≥ tb
      · rw [if_pos hf]
        exact ⟨hd1, hA1, hWF1, hgoal1⟩
      · rw [if_neg hf]
        have hsp1 : weekSpentSoFar (processShop tb ws wa 2 0 st).entries ws =
            e0.plannedAmount := by
          rw [hent0]
          exact weekSpentSoFar_append st.entries e0 ws hd hdate0'
        have hp1 : tentativeAmount wa (processShop tb ws wa 2 0 st).entries
            ws 2 1 = wa - 50 := by
          unfold tentativeAmount
          rw [hsp1, hr0]
          norm_num
        refine C1_shop tb ws wa 2 1 (processShop tb ws wa 2 0 st) (by decide)
          hd1 hA1 hWF1 hgoal1 ?_
        intro i hi
        obtain ⟨-, -, hminp, -⟩ := bestRedemption_spec _ _ _ _ i hi
        rw [hp1] at hminp
        rw [hspend0]
        linarith
    · push_neg at h100
      have hopt : optimizeSpendForCoupon (wa / 2) (tb - st.totalSpend) =
          wa / 2 := by
        unfold optimizeSpendForCoupon
        rw [if_neg (fun h => by linarith [h.2.1] :
          ¬(wa / 2 ≥ 45 ∧ wa / 2 < 50 ∧ tb - st.totalSpend ≥ 50))]
        rw [if_pos (by linarith : wa / 2 ≥ 50)]
        exact max_eq_right (by linarith)
      have hmin : min (optimizeSpendForCoupon (wa / 2) (tb - st.totalSpend))
          (tb - st.totalSpend) = wa / 2 := by
        rw [hopt]
        exact min_eq_left (by linarith)
      rw [hmin] at hspend0
      by_cases hf : (processShop tb ws wa 2 0 st).totalSpend ≥ tb
      · rw [if_pos hf]
        exact ⟨hd1, hA1, hWF1, hgoal1⟩
      · rw [if_neg hf]
        refine C1_shop tb ws wa 2 1 (processShop tb ws wa 2 0 st) (by decide)
          hd1 hA1 hWF1 hgoal1 ?_
        intro i hi
        obtain ⟨hact1i, -, -, -⟩ := bestRedemption_spec _ _ _ _ i hi
        have hilt : i < (processShop tb ws wa 2 0 st).coupons.length :=
          hA1 i ((sweepExpired_fst_sublist _ _ _).subset hact1i)
        have hm := hWF1 _ (heapGet_mem hilt)
        rw [hspend0]
        rcases hm with ⟨-, h⟩ | ⟨-, h⟩ <;> rw [h] <;> linarith
  · -- one shop
    rw [h1, runWeekShops_one]
    have hp0 : tentativeAmount wa st.entries ws 1 0 = wa := by
      unfold tentativeAmount
      rw [hspent0]
      norm_num
    exact C1_shop tb ws wa 1 0 st (by decide) hd7 hA hWF hgoal (by
      intro i hi
      obtain ⟨-, -, hminp, -⟩ := bestRedemption_spec _ _ _ _ i hi
      rw [hp0] at hminp
      linarith)

/-- Over the whole run, every redeeming entry records at least the redeemed
coupon's minimum spend. -/
theorem C1_run (b tb : ℚ) (d : ℤ) :
    ∀ (wl w : ℕ) (st : PlanState), C1Inv (d + 7 * (w : ℤ)) st →
      ∀ e ∈ (runWeeks b tb d w wl st).entries, ∀ i, e.couponUsed = some i →
        (heapGet (runWeeks b tb d w wl st).coupons i).minSpend ≤
          e.plannedAmount := by
  intro wl
  induction wl with
  | zero =>
    intro w st hinv e he i hi
    exact (hinv.2.2.2 e he i hi).2
  | succ wl ih =>
    intro w st hinv
    rw [runWeeks]
    by_cases hg : min b (tb - st.totalSpend) ≤ 0
    · rw [if_pos hg]
      exact fun e he i hi => (hinv.2.2.2 e he i hi).2
    · rw [if_neg hg]
      have hwk := C1_week b tb (d + 7 * (w : ℤ)) st hinv (not_le.mp hg)
      have hcast : d + 7 * (w : ℤ) + 7 = d + 7 * ((w + 1 : ℕ) : ℤ) := by
        push_cast
        ring
      rw [hcast] at hwk
      by_cases hfl : (runWeekShops tb (d + 7 * (w : ℤ))
          (min b (tb - st.totalSpend))
          (determineOptimalShopsPerWeek (min b (tb - st.totalSpend))) st).2
      · rw [if_pos hfl]
        exact fun e he i hi => (hwk.2.2.2 e he i hi).2
      · rw [if_neg hfl]
        exact ih (w + 1) _ hwk

/-- C1: in every plan, an entry that records a redeemed coupon records a
planned amount of at least that coupon's minimum spend — the threshold nudge
and the final clamp to the remaining overall budget never underfund a
redemption locked in at the redemption step. -/
theorem claim_C1_redemption_minimum (b : ℚ) (d : ℤ) :
    ∀ e ∈ (optimizeShoppingPlan b d).entries, ∀ i, e.couponUsed = some i →
      (heapGet (optimizeShoppingPlan b d).coupons i).minSpend ≤
        e.plannedAmount := by
  have hinit : C1Inv (d + 7 * ((0 : ℕ) : ℤ)) initState := by
    refine ⟨?_, ?_, ?_, ?_⟩ <;> intro x hx <;> simp [initState] at hx
  have h := C1_run b (b * 10) d 10 0 initState hinit
  intro e he i hi
  rw [optimizeShoppingPlan_entries] at he
  rw [optimizeShoppingPlan_coupons]
  exact h e he i hi

/-- The second entry of the 30-per-week plan: redeems coupon 0 at 30. -/
def c1WitnessEntry : ShoppingEntry :=
  { id := 1, date := 7, plannedAmount := 30, couponEarned := some 1,
    couponUsed := some 0, savings := 5 }

theorem claim_C1_redemption_minimum_witness :
    c1WitnessEntry ∈ (optimizeShoppingPlan 30 0).entries ∧
    c1WitnessEntry.couponUsed = some 0 ∧
    (heapGet (optimizeShoppingPlan 30 0).coupons 0).minSpend ≤
      c1WitnessEntry.plannedAmount :=
  ⟨by decide, rfl,
    claim_C1_redemption_minimum 30 0 c1WitnessEntry (by decide) 0 rfl⟩

/-! ## Claim C10: identifier independence and reference consistency -/

theorem stripIds_attachIds (g : ℕ → String) (r : OptimizationResult) :
    stripIds (attachIds g r) = r := by
  cases r with
  | mk entries coupons totalSpend totalSavings missedSavings couponsEarned
      couponsUsed =>
    simp only [stripIds, attachIds, List.map_map]
    congr 1
    exact List.enum_map_snd coupons

/-- The entry references of a state stay inside the coupon heap. -/
def RefInv (st : PlanState) : Prop :=
  (∀ i ∈ st.activeCoupons, i < st.coupons.length) ∧
  (∀ e ∈ st.entries, ∀ i, e.couponUsed = some i → i < st.coupons.length) ∧
  (∀ e ∈ st.entries, ∀ i, e.couponEarned = some i → i < st.coupons.length)

theorem refInv_step (tb : ℚ) (ws : ℤ) (wa : ℚ) (s k : ℕ) (st : PlanState)
    (h : RefInv st) : RefInv (processShop tb ws wa s k st) := by
  obtain ⟨hA, hU, hE⟩ := h
  obtain ⟨e, tailC, tailA, hent, hdate, hused, hspend, hamt, hsav, htsav,
    hcu, hcoup, hce, htailC, hact, htailA, hlenA, hearn⟩ :=
    processShop_cases tb ws wa s k st
  have hswept : ∀ i ∈ (sweepExpired st.coupons st.activeCoupons
      (ws + shopDayOffset s k)).1, i < st.coupons.length :=
    fun i hi => hA i ((sweepExpired_fst_sublist _ _ _).subset hi)
  have hlen' : (processShop tb ws wa s k st).coupons.length =
      st.coupons.length + tailC.length := by
    rw [hcoup]
    rcases e.couponUsed with _ | b
    · simp
    · simp [setUsed_length]
  have hlenle : st.coupons.length ≤
      (processShop tb ws wa s k st).coupons.length := by
    rw [hlen']
    exact Nat.le_add_right _ _
  refine ⟨?_, ?_, ?_⟩
  · intro i hi
    rw [hact, List.mem_append] at hi
    rcases hi with hi | hi
    · exact lt_of_lt_of_le (hswept i hi) hlenle
    · rcases htailA with rfl | rfl
      · cases hi
      · rw [List.mem_singleton] at hi
        subst hi
        rw [hlen']
        have h1 : tailC.length = 1 := by rw [← hlenA]; rfl
        rw [h1]
        exact Nat.lt_succ_self _
  · intro e' he' i hi
    rw [hent, List.mem_append] at he'
    rcases he' with he' | he'
    · exact lt_of_lt_of_le (hU e' he' i hi) hlenle
    · rw [List.mem_singleton] at he'
      subst he'
      rw [hused] at hi
      obtain ⟨hact1, -, -, -⟩ := bestRedemption_spec _ _ _ _ i hi
      exact lt_of_lt_of_le (hswept i hact1) hlenle
  · intro e' he' i hi
    rw [hent, List.mem_append] at he'
    rcases he' with he' | he'
    · exact lt_of_lt_of_le (hE e' he' i hi) hlenle
    · rw [List.mem_singleton] at he'
      subst he'
      exact (hearn i hi).1

/-- C10: two planning runs with the same budget and start date differ at
most in the rendered coupon identifier strings (erasing them yields
identical results), and each run is internally self-consistent: every
coupon reference held by an entry resolves inside the result's coupon
table, and the coupon it resolves to carries exactly the identifier string
rendered from its own creation ordinal — the reference and the referred
coupon can never disagree about the identifier. -/
theorem claim_C10_idempotence_mod_ids (g1 g2 : ℕ → String) (b : ℚ)
    (d : ℤ) :
    stripIds (optimizeShoppingPlanWithIds g1 b d) =
      stripIds (optimizeShoppingPlanWithIds g2 b d) ∧
    (∀ e ∈ (optimizeShoppingPlanWithIds g1 b d).entries, ∀ i,
      (e.couponUsed = some i →
        i < (optimizeShoppingPlanWithIds g1 b d).coupons.length) ∧
      (e.couponEarned = some i →
        i < (optimizeShoppingPlanWithIds g1 b d).coupons.length)) ∧
    (∀ (i : ℕ) (cw : CouponWithId),
      (optimizeShoppingPlanWithIds g1 b d).coupons[i]? = some cw →
      cw.id = couponIdString cw.coupon.type cw.coupon.earnedDate (g1 i)) := by
  have hstrip : ∀ g : ℕ → String,
      stripIds (optimizeShoppingPlanWithIds g b d) =
        optimizeShoppingPlan b d :=
    fun g => stripIds_attachIds g (optimizeShoppingPlan b d)
  have hlen : (optimizeShoppingPlanWithIds g1 b d).coupons.length =
      (optimizeShoppingPlan b d).coupons.length := by
    simp [optimizeShoppingPlanWithIds, attachIds]
  have hentries : (optimizeShoppingPlanWithIds g1 b d).entries =
      (optimizeShoppingPlan b d).entries := rfl
  have hinit : RefInv initState := by
    refine ⟨?_, ?_, ?_⟩ <;> intro x hx <;> simp [initState] at hx
  obtain ⟨-, hU, hE⟩ :=
    runWeeks_preserves refInv_step b (b * 10) d 10 0 initState hinit
  refine ⟨(hstrip g1).trans (hstrip g2).symm, ?_, ?_⟩
  · intro e he i
    rw [hentries, optimizeShoppingPlan_entries] at he
    rw [hlen]
    constructor
    · intro hi
      rw [optimizeShoppingPlan_coupons]
      exact hU e he i hi
    · intro hi
      rw [optimizeShoppingPlan_coupons]
      exact hE e he i hi
  · intro i cw hcw
    have : (optimizeShoppingPlanWithIds g1 b d).coupons[i]? =
        ((optimizeShoppingPlan b d).coupons[i]?).map fun c =>
          ({ id := couponIdString c.type c.earnedDate (g1 i), coupon := c } :
            CouponWithId) := by
      show ((optimizeShoppingPlan b d).coupons.enum.map fun p =>
        ({ id := couponIdString p.2.type p.2.earnedDate (g1 p.1),
           coupon := p.2 } : CouponWithId))[i]? = _
      rw [List.getElem?_map]
      simp only [List.getElem?_enum, Option.map_map]
      rfl
    rw [this] at hcw
    rcases hcv : (optimizeShoppingPlan b d).coupons[i]? with _ | c
    · rw [hcv] at hcw
      cases hcw
    · rw [hcv] at hcw
      injection hcw with hcw
      rw [← hcw]

theorem claim_C10_idempotence_mod_ids_witness :
    stripIds (optimizeShoppingPlanWithIds (fun _ => "a") 30 0) =
      stripIds (optimizeShoppingPlanWithIds (fun n => toString n) 30 0) ∧
    (∀ e ∈ (optimizeShoppingPlanWithIds (fun _ => "a") 30 0).entries, ∀ i,
      (e.couponUsed = some i →
        i < (optimizeShoppingPlanWithIds (fun _ => "a") 30 0).coupons.length) ∧
      (e.couponEarned = some i →
        i < (optimizeShoppingPlanWithIds (fun _ => "a") 30 0).coupons.length)) ∧
    (∀ (i : ℕ) (cw : CouponWithId),
      (optimizeShoppingPlanWithIds (fun _ => "a") 30 0).coupons[i]? = some cw →
      cw.id = couponIdString cw.coupon.type cw.coupon.earnedDate
        ((fun _ => "a") i)) :=
  claim_C10_idempotence_mod_ids (fun _ => "a") (fun n => toString n) 30 0

/-- A one-coupon state in which the next shop redeems that coupon. -/
def redemptionWitnessState : PlanState :=
  { coupons := [createCoupon CouponType.small 0], activeCoupons := [0],
    entries := [], totalSpend := 0, totalSavings := 0, missedSavings := 0,
    couponsEarned := 1, couponsUsed := 0, entryId := 1 }

theorem claim_C5_greedy_redemption_witness :
    (∀ i ∈ redemptionWitnessState.activeCoupons,
      i < redemptionWitnessState.coupons.length) ∧
    RedemptionStep 300 7 30 1 0 redemptionWitnessState :=
  ⟨by decide,
    claim_C5_greedy_redemption 300 7 30 1 0 redemptionWitnessState (by decide)⟩

theorem claim_C6_expiry_sweep_witness :
    ([0] : List ℕ).Nodup ∧
      (∀ i ∈ ([0] : List ℕ),
        i < ({ coupons := [createCoupon CouponType.small 5],
               activeCoupons := [0], entries := [], totalSpend := 0,
               totalSavings := 0, missedSavings := 0, couponsEarned := 1,
               couponsUsed := 0, entryId := 0 } : PlanState).coupons.length) ∧
      (sweepExpired [createCoupon CouponType.small 5] [0] (13 + shopDayOffset 1 0)).2 = 5 ∧
      (processShop 300 13 30 1 0
          { coupons := [createCoupon CouponType.small 5],
            activeCoupons := [0], entries := [], totalSpend := 0,
            totalSavings := 0, missedSavings := 0, couponsEarned := 1,
            couponsUsed := 0, entryId := 0 }).missedSavings = 0 + 5 := by
  have h :=
    claim_C6_expiry_sweep 300 13 30 1 0
      { coupons := [createCoupon CouponType.small 5], activeCoupons := [0],
        entries := [], totalSpend := 0, totalSavings := 0, missedSavings := 0,
        couponsEarned := 1, couponsUsed := 0, entryId := 0 }
      (by decide) (by decide)
  refine ⟨by decide, by decide, by decide, ?_⟩
  rw [h.2.2.1]
  norm_num
  decide

end Dunnes
